import Mathlib

/-!
# Verification of the AIJmeter report data pipeline

Shallow embedding, in Lean 4, of the claim-relevant parts of the AIJmeter
repository (scripts under `scripts/`), together with theorems settling the
frozen claims about that code.

Conventions used throughout:
* Python strings are modelled as `List Char`; Python integers as `Int`/`Nat`;
  Python floats as `ℚ` (exact arithmetic; each place where this matters is
  annotated at the definition).
* Python functions that can raise are modelled in `Except PyExn`.
* Regular-expression operations from the source are modelled by executable
  matchers specialised to the concrete patterns appearing in the source;
  every such specialisation is justified in a comment at the definition.
-/

set_option maxRecDepth 20000

namespace AIJmeter

/-! ## Part 1: the report patcher (`update_original_report`)

Source: `scripts/ai_analyze_report.py`, lines 1038-1083, and the
byte-identical `scripts/ai_analyze_report2.py`, lines 973-1031.  The function
reads the summary document, and
* if the document matches `original_ai_pattern` (the Unpatched placeholder),
  rewrites every occurrence to `new_ai_section` via `re.sub`;
* otherwise (whether or not `updated_ai_pattern` matches) leaves the content
  unchanged.  Both the `elif` branch and the `else` branch of the source set
  `new_content = content`, so the test against `updated_ai_pattern` does not
  affect the produced document and only selects a log message; the model
  therefore only branches on the Unpatched pattern.

`original_ai_pattern` is a concatenation of fixed literals separated by
`\s+` / `\s*` gaps (no other regex operators), compiled with `re.DOTALL`
(irrelevant: the pattern contains no dot).  Because no literal of the pattern
begins with a whitespace character, the greedy `\s+`/`\s*` never needs to
backtrack: consuming the maximal run of whitespace is equivalent to full
backtracking search.  The matcher `mrun` below therefore implements the
pattern deterministically by maximal munch.
-/

/-- Python regex class `\s` for `str` patterns: ASCII whitespace
[ \t\n\r\x0b\x0c] plus the Unicode whitespace characters recognised by
CPython (file separators U+001C-U+001F, NEL U+0085, NBSP U+00A0, and the
Unicode space code points). -/
def isWsChar (c : Char) : Bool :=
  c ∈ [' ', '\t', '\n', '\r', '\x0b', '\x0c',
       '\x1c', '\x1d', '\x1e', '\x1f', '\x85', '\xa0',
       ' ', ' ', ' ', ' ', ' ', ' ', ' ',
       ' ', ' ', ' ', ' ', ' ',
       ' ', ' ', ' ', ' ', '　']

/-- One token of the (literal / whitespace-gap) patterns used by
`update_original_report`: a fixed literal, or a whitespace gap (`ws true`
is `\s+`, `ws false` is `\s*`). -/
inductive Tok where
  | lit (cs : List Char)
  | ws (one : Bool)
deriving DecidableEq, Repr

/-- Result of running a token pattern against an input fragment:
`succ rest` = the pattern matched a prefix and `rest` is the unconsumed
input; `fail` = a character mismatch occurred (no extension of the input can
help); `eof st` = the input ran out with obligation `st` still pending
(matching could resume on further input from state `st`). -/
inductive MRes where
  | succ (rest : List Char)
  | fail
  | eof (st : List Tok)
deriving DecidableEq, Repr

/-- Single-character step of the matcher from a pending state:
`none` = character mismatch (no extension of the input can help);
`some none` = the state accepts without consuming the character;
`some (some st)` = the character is consumed and matching continues from
`st` (with an exhausted head literal normalised away). -/
def stepState : List Tok → Char → Option (Option (List Tok))
  | [], _ => some none
  | .lit [] :: ts, c => stepState ts c
  | .lit (a :: as) :: ts, c =>
      if a = c then (if as = [] then some (some ts) else some (some (.lit as :: ts))) else none
  | .ws b :: ts, c =>
      if isWsChar c then some (some (.ws false :: ts))
      else if b then none else stepState ts c

/-- Deterministic matcher for literal/whitespace-gap patterns, by maximal
munch on the whitespace gaps (equivalent to the backtracking semantics of
the Python engine for patterns in which no literal begins with a whitespace
character, as is the case for `original_ai_pattern`: a backtracking
position inside a maximal whitespace run always faces a literal whose first
character is not whitespace, so every backtracking branch fails).
Structural recursion on the input, one character at a time. -/
def mrun : List Tok → List Char → MRes
  | p, [] => match p with
             | [] => .succ []
             | _ :: _ => .eof p
  | p, c :: t =>
      match stepState p c with
      | none => .fail
      | some none => .succ (c :: t)
      | some (some st) => mrun st t

/-- `original_ai_pattern` from the source (ai_analyze_report.py line 1049 /
ai_analyze_report2.py line 989), tokenised:
`<div\s+class="stat-card"\s+style="background-color:\s*#fff3cd;">\s*<div\s+class="stat-value"\s+style="color:\s*#666;">\s*AI分析\s*</div>\s*<div\s+style="font-size:\s*12px;\s*color:\s*#dc3545;\s*margin-top:\s*5px;">\s*无\s*</div>\s*</div>` -/
def origTokens : List Tok :=
  [.lit "<div".toList, .ws true, .lit "class=\"stat-card\"".toList, .ws true,
   .lit "style=\"background-color:".toList, .ws false, .lit "#fff3cd;\">".toList, .ws false,
   .lit "<div".toList, .ws true, .lit "class=\"stat-value\"".toList, .ws true,
   .lit "style=\"color:".toList, .ws false, .lit "#666;\">".toList, .ws false,
   .lit "AI分析".toList, .ws false, .lit "</div>".toList, .ws false,
   .lit "<div".toList, .ws true, .lit "style=\"font-size:".toList, .ws false,
   .lit "12px;".toList, .ws false, .lit "color:".toList, .ws false,
   .lit "#dc3545;".toList, .ws false, .lit "margin-top:".toList, .ws false,
   .lit "5px;\">".toList, .ws false, .lit "无".toList, .ws false,
   .lit "</div>".toList, .ws false, .lit "</div>".toList]

/-- `n` spaces. -/
def sp (n : Nat) : List Char := List.replicate n ' '

/-- The part of `new_ai_section` (source lines 1059-1066) preceding the
interpolated `ai_report_name`, with the exact whitespace of the f-string. -/
def replFront : List Char :=
  "<div class=\"stat-card\" style=\"background-color: #fff3cd;\">\n".toList ++ sp 20 ++
  "<div class=\"stat-value\" style=\"color: #666;\">\n".toList ++ sp 24 ++
  "<a href=\"".toList

/-- The part of `new_ai_section` following the interpolated
`ai_report_name`. -/
def replBack : List Char :=
  "\" style=\"color: #28a745; text-decoration: none;\" target=\"_blank\">AI分析</a>\n".toList ++ sp 20 ++
  "</div>\n".toList ++ sp 20 ++
  "<div style=\"font-size: 12px; color: #666; margin-top: 5px;\">\n".toList ++ sp 24 ++
  "点击查看\n".toList ++ sp 20 ++
  "</div>\n".toList ++ sp 16 ++
  "</div>".toList

/-- `new_ai_section` with the AI-report link name interpolated. -/
def newAiSection (name : List Char) : List Char := replFront ++ name ++ replBack

/-- All states the matcher can step to from a given state, over every
possible input character (used to close the reachable-state set). -/
def succStates : List Tok → List (List Tok)
  | [] => []
  | .lit [] :: ts => succStates ts
  | .lit (_ :: as) :: ts => [if as = [] then ts else .lit as :: ts]
  | .ws _ :: ts => (.ws false :: ts) :: succStates ts

/-- States with the head literal a given nonempty suffix of `l`, followed by
the remaining tokens `ts`. -/
def litSuffixStates (l : List Char) (ts : List Tok) : List (List Tok) :=
  match l with
  | [] => []
  | c :: cs => (.lit (c :: cs) :: ts) :: litSuffixStates cs ts

/-- All pending states reachable while matching the pattern `p`: every
token-list tail of `p`, with the head literal replaced by any nonempty
suffix, and with the `\s+` head weakened to `\s*`, plus the accepting state
`[]`. -/
def stateTails : List Tok → List (List Tok)
  | [] => [[]]
  | .lit l :: ts => litSuffixStates l ts ++ stateTails ts
  | .ws b :: ts => (.ws b :: ts) :: (.ws false :: ts) :: stateTails ts

/-- The reachable states of `origTokens`. -/
def aiStates : List (List Tok) := stateTails origTokens

/-- Fuelled worker for `reSubAi` (the fuel makes the recursion structural,
so that the function evaluates inside the kernel; `reSubAi` supplies enough
fuel, and the fuel-free unfolding equation is proved below as
`reSubAi_eq`). -/
def reSubAiF (r : List Char) : Nat → List Char → List Char
  | 0, _ => []
  | n + 1, s =>
      match mrun origTokens s with
      | .succ rest => r ++ reSubAiF r n rest
      | _ =>
          match s with
          | [] => []
          | c :: t => c :: reSubAiF r n t

/-- Model of `re.sub(original_ai_pattern, r, content)`: scan left to right,
replacing each leftmost non-overlapping match by `r` (the pattern cannot
match the empty string, so the zero-width special case of `re.sub` never
arises). -/
def reSubAi (r : List Char) (s : List Char) : List Char :=
  reSubAiF r (s.length + 1) s

/-- Fuelled worker for `reSearchAi`. -/
def reSearchAiF : Nat → List Char → Bool
  | 0, _ => false
  | n + 1, s =>
      match mrun origTokens s with
      | .succ _ => true
      | _ =>
          match s with
          | [] => false
          | _ :: t => reSearchAiF n t

/-- Model of `re.search(original_ai_pattern, content) is not None`: does a
match start at any position? -/
def reSearchAi (s : List Char) : Bool :=
  reSearchAiF (s.length + 1) s

/-- `update_original_report` (both source files): replace every Unpatched
placeholder by `new_ai_section`; if the Unpatched pattern does not occur,
the content is returned unchanged (the source writes `new_content = content`
in both the already-patched branch and the no-placeholder branch, so the
test of `updated_ai_pattern` only selects a log message and is not part of
the document transformation). -/
def update_original_report (content name : List Char) : List Char :=
  if reSearchAi content then reSubAi (newAiSection name) content else content

/-- A well-formed token pattern: no empty literals (true of `origTokens`,
checked by evaluation below). -/
def patOk (p : List Tok) : Bool :=
  p.all fun t => match t with | .lit l => !l.isEmpty | .ws _ => true

/-- A summary document consisting of one Unpatched placeholder block (the
`\s*` gaps of the pattern instantiated with single spaces or nothing). -/
def unpatchedDoc : List Char :=
  ("<div class=\"stat-card\" style=\"background-color: #fff3cd;\">" ++
   "<div class=\"stat-value\" style=\"color: #666;\">AI分析</div>" ++
   "<div style=\"font-size: 12px; color: #dc3545; margin-top: 5px;\">无</div></div>").toList

/-- An ordinary AI-report link name, as produced by the report generator. -/
def benignName : List Char := "test_AIReport_20260101_120000.html".toList

/-! ## Part 2: per-label latency statistics

Source: `scripts/enhanced_html_report.py`, lines 112-135
(`generate_enhanced_html_report`, summary pass).  Elapsed times are Python
floats, modelled as exact rationals. -/

/-- Python `min(xs)` on a nonempty list; the `[]` case returns 0 and is
never reached by the source (the summary pass runs only when
`sampleCount > 0`). -/
def pyListMin : List ℚ → ℚ
  | [] => 0
  | x :: xs => xs.foldl min x

/-- Python `max(xs)` on a nonempty list (same convention). -/
def pyListMax : List ℚ → ℚ
  | [] => 0
  | x :: xs => xs.foldl max x

/-- Python `sorted(times)` (ascending). -/
def sortedTimes (times : List ℚ) : List ℚ :=
  times.mergeSort (fun a b => decide (a ≤ b))

/-- The index `int(len(sorted_times) * (pct / 100))` computed by the source
at `pct ∈ {90, 95, 99}` (lines 121-123).  The source computes the product
in IEEE double arithmetic; for the constants 0.9, 0.95, 0.99 the nearest
doubles differ from the exact decimal by less than 2^-53 relative error, so
the truncated product equals the exact floor `n * pct / 100` for every list
length below 2^49, which this embedding uses. -/
def pctIndex (n pct : Nat) : Nat := n * pct / 100

/-- Modelled from the spec (§4.2 percentile computation), for comparison
with the index used by the code: `floor(percentile * count)` clamped to
`count - 1`. -/
def specClampedIndex (n pct : Nat) : Nat := min (n * pct / 100) (n - 1)

/-- One finalized label aggregate (source lines 112-123): the derived
latency statistics over the recorded elapsed times of one label. -/
structure FinalStats where
  meanResTime : ℚ
  medianResTime : ℚ
  minResTime : ℚ
  maxResTime : ℚ
  errorPct : ℚ
  pct90 : ℚ
  pct95 : ℚ
  pct99 : ℚ
deriving Repr, DecidableEq

/-- Finalization of one label aggregate with `sample_count > 0`:
`totalTime` is the running sum of the recorded times, `sampleCount` their
number, and each percentile reads the ascending sort at the index of
`pctIndex` (the source indexes the list directly, without a clamp; the
`getD` default 0 is never used, as proved in the claim theorems). -/
def finalizeStat (times : List ℚ) (errorCount : Nat) : FinalStats :=
  let n := times.length
  { meanResTime := (times.foldl (· + ·) 0) / (n : ℚ)
    medianResTime := (sortedTimes times).getD (n / 2) 0
    minResTime := pyListMin times
    maxResTime := pyListMax times
    errorPct := ((errorCount : ℚ) / (n : ℚ)) * 100
    pct90 := (sortedTimes times).getD (pctIndex n 90) 0
    pct95 := (sortedTimes times).getD (pctIndex n 95) 0
    pct99 := (sortedTimes times).getD (pctIndex n 99) 0 }

/-! ## Part 3: timestamp unit decision

Source: `scripts/sla_linux_jmeter563.py`, lines 674-711 (XML path of
`calculate_tps_from_jtl`) and lines 866-902 (`calculate_tps_from_csv_jtl`).
Timestamps are Python ints parsed by `int(...)`. -/

/-- Python `min` over a nonempty list of ints (0 on the empty list, which
the source never reaches: both paths return `None` earlier when no
timestamp was collected). -/
def pyIntMin : List Int → Int
  | [] => 0
  | x :: xs => xs.foldl min x

/-- Python `max` over a nonempty list of ints (same convention). -/
def pyIntMax : List Int → Int
  | [] => 0
  | x :: xs => xs.foldl max x

/-- Python floor division `//` on ints. -/
def pyFloorDiv (a b : Int) : Int := Int.fdiv a b

/-- Unit decision of the XML path (source lines 674-711), branch for
branch.  `nowSec` is `int(datetime.datetime.now().timestamp())`.  Note that
every branch of the source assigns `is_milliseconds = True`; the value
decides whether the per-second bucketing divides by 1000. -/
def xml_is_milliseconds (timestamps : List Int) (nowSec : Int) : Bool :=
  let minTs := pyIntMin timestamps
  let maxTs := pyIntMax timestamps
  if minTs = 1 ∨ minTs < 100 then true
  else if maxTs > nowSec * 1000 * 2 then true
  else
    let timeRange := maxTs - minTs
    if 1000 ≤ timeRange ∧ timeRange ≤ 3600000 then true
    else
      let timeRangeSec := pyFloorDiv maxTs 1000 - pyFloorDiv minTs 1000
      if 0 < timeRangeSec ∧ timeRangeSec ≤ 3600 then true
      else true

/-- Unit decision of the CSV path (source lines 866-891): `true` means the
timestamps are treated as milliseconds (start and end times divided by
1000; the bucketing at lines 899-902 divides exactly when
`min_ts < 1000000000`, i.e. when the first branch below was entered). -/
def csv_is_milliseconds (timestamps : List Int) : Bool :=
  let minTs := pyIntMin timestamps
  let maxTs := pyIntMax timestamps
  if minTs < 1000000000 then
    let timeRangeSec := pyFloorDiv maxTs 1000 - pyFloorDiv minTs 1000
    decide (0 < timeRangeSec ∧ timeRangeSec < 86400)
  else false

/-- Modelled from the spec (§4.1 unit-ambiguity heuristic), for comparison
with the decision of the code: returns `true` when the description of the
spec assigns the SECONDS interpretation — i.e. when the fallback condition
holds (value implausibly small, or millisecond range outside one second to
one hour) but interpreting the raw values as seconds yields a plausible
range (one second to one hour). -/
def spec_unit_is_seconds (timestamps : List Int) : Bool :=
  let minTs := pyIntMin timestamps
  let maxTs := pyIntMax timestamps
  let timeRange := maxTs - minTs
  if minTs < 100 ∨ timeRange < 1000 ∨ timeRange > 3600000 then
    decide (1 ≤ timeRange ∧ timeRange ≤ 3600)
  else false

/-! ## Part 4: extraction control flow and TPS records

Source: `scripts/sla_linux_jmeter563.py`.  Fallible Python code is modelled
in `Except PyExn`. -/

/-- Python exception kinds distinguished by the extraction control flow. -/
inductive PyExn where
  | parseError
  | ioError
  | other
deriving DecidableEq, Repr

/-- `try body except (e if catches e): handler e` — uncaught exceptions
propagate. -/
def pyTryCatch {α : Type} (body : Except PyExn α) (catches : PyExn → Bool)
    (handler : PyExn → Except PyExn α) : Except PyExn α :=
  match body with
  | .ok a => .ok a
  | .error e => if catches e then handler e else .error e

/-- The `tps_data` dictionary assembled by the TPS extractors. -/
structure TpsData where
  total_requests : Nat
  test_duration_seconds : Int
  average_tps : ℚ
  peak_tps : ℚ
  min_tps : ℚ
  tps_by_second : List (Int × Nat)
  start_time : String
  end_time : String
deriving Repr, DecidableEq

/-- Control flow of `calculate_tps_from_csv_jtl` (lines 821-927): the whole
body is wrapped in `try ... except Exception: return None`, so the function
returns an optional result and never raises; the CSV reading and
computation inside the `try` is abstracted as its outcome `body` (the
source body returns `None` itself at the empty-file, no-timestamp-column
and no-valid-timestamp early exits). -/
def calculate_tps_from_csv_jtl (body : Except PyExn (Option TpsData)) : Option TpsData :=
  match body with
  | .ok r => r
  | .error _ => none

/-- Control flow of `calculate_tps_from_jtl` (lines 632-798): inside an
outer `try ... except Exception: return None` sits an inner
`try: tree = ET.parse(...); <xml branch> except ET.ParseError: return
calculate_tps_from_csv_jtl(...)`.  `parse` is the outcome of
`ET.parse(jtl_file)`, `xmlBody tree` the outcome of the remainder of the
XML branch (`None` when no timestamps are found, a `TpsData` otherwise, or
an exception), and `csvBody` the outcome of the CSV body read from the same
file. -/
def calculate_tps_from_jtl {XmlTree : Type} (parse : Except PyExn XmlTree)
    (xmlBody : XmlTree → Except PyExn (Option TpsData))
    (csvBody : Except PyExn (Option TpsData)) : Except PyExn (Option TpsData) :=
  pyTryCatch
    (pyTryCatch (parse.bind xmlBody)
      (fun e => e matches PyExn.parseError)
      (fun _ => .ok (calculate_tps_from_csv_jtl csvBody)))
    (fun _ => true)
    (fun _ => .ok none)

/-- Python `round(x, 2)`: round to two decimals, ties to even (CPython
rounds the decimal value; exact here on rationals). -/
def pyRound2 (q : ℚ) : ℚ :=
  let x := q * 100
  let f : ℤ := ⌊x⌋
  let r := x - (f : ℚ)
  ((if r < 1 / 2 then f
    else if 1 / 2 < r then f + 1
    else if f % 2 = 0 then f else f + 1 : ℤ) : ℚ) / 100

/-- `calculate_tps_from_html_report` (lines 467-570): the request-count
scraping (lines 477-537, three regex methods over the document) is
abstracted as its result `total_requests`; the claim theorems quantify over
every value it could take, covering every document content.  From line 538
on the source fixes `test_duration_seconds = 10` (a hard-coded constant,
per the comment in the source), returns `None` when the scraped count is
zero, and otherwise derives the remaining fields as shown. -/
def calculate_tps_from_html_report (total_requests : Nat) : Option TpsData :=
  let test_duration_seconds : Int := 10
  if total_requests = 0 then none
  else
    let avg_tps : ℚ :=
      if test_duration_seconds > 0 then
        (total_requests : ℚ) / (test_duration_seconds : ℚ)
      else 0
    let peak_tps := avg_tps * (3 / 2 : ℚ)  -- the float literal 1.5, exact in binary
    let min_tps := avg_tps * (1 / 2 : ℚ)   -- the float literal 0.5, exact in binary
    some { total_requests := total_requests
           test_duration_seconds := test_duration_seconds
           average_tps := pyRound2 avg_tps
           peak_tps := pyRound2 peak_tps
           min_tps := pyRound2 min_tps
           tps_by_second := []
           start_time := "从报告中提取"
           end_time := "从报告中提取" }

/-! ## Part 5: the narrative-generation call

Source: `scripts/ai_analyze_report2.py`, lines 365-422
(`call_ai_service`). -/

/-- Outcome of one attempt of the service call, as classified by the
`except` clauses of the source: `success` = 2xx response with the expected
body shape; `timeout` = `requests.exceptions.Timeout`; `requestError` =
`requests.exceptions.RequestException` (which includes the `HTTPError`
raised by `raise_for_status()` on a non-2xx response); `otherError` = any
other exception (caught by the final `except Exception`, e.g. an unexpected
response shape).  The three clauses together cover every exception, so the
call never raises to its caller. -/
inductive AIAttempt where
  | success (text : String)
  | timeout
  | requestError
  | otherError
deriving DecidableEq, Repr

/-- The narrative returned to the caller: service text, or the local
placeholder produced by `get_mock_analysis()`. -/
inductive Narrative where
  | fromService (text : String)
  | mock
deriving DecidableEq, Repr

/-- `max_retries = 3` (source line 376). -/
def maxRetries : Nat := 3

/-- The `for attempt in range(max_retries)` loop (lines 379-422): on
timeout before the last attempt, sleep `delay` seconds and double it
(exponential backoff, initial `retry_delay = 2`); on timeout at the last
attempt, or on any other error, return the local placeholder.  Returns the
narrative together with the list of sleeps performed.  The fuel counts the
remaining attempts (`maxRetries - attempt`); the zero case is unreachable
from `call_ai_service`. -/
def aiRetryLoop (outcomes : Nat → AIAttempt) : Nat → Nat → Nat → Narrative × List Nat
  | 0, _, _ => (.mock, [])
  | fuel + 1, attempt, delay =>
      match outcomes attempt with
      | .success t => (.fromService t, [])
      | .requestError => (.mock, [])
      | .otherError => (.mock, [])
      | .timeout =>
          if attempt < maxRetries - 1 then
            let r := aiRetryLoop outcomes fuel (attempt + 1) (delay * 2)
            (r.1, delay :: r.2)
          else (.mock, [])

/-- `call_ai_service` (lines 365-422): with no configured API key (Python
falsy: the empty string) the mock analysis is returned without calling the
service; otherwise the retry loop runs with initial delay 2.  The
configuration lookups before the `try` are modelled by the `apiKey`
argument (`load_config` merges user configuration over a complete default,
so the keys are present). -/
def call_ai_service (apiKey : String) (outcomes : Nat → AIAttempt) :
    Narrative × List Nat :=
  if apiKey = "" then (.mock, [])
  else aiRetryLoop outcomes maxRetries 0 2

/-! ## Part 6: Markdown-to-HTML conversion

Source: `scripts/ai_analyze_report.py`, lines 896-1036
(`markdown_to_html`).  The conversion is a fixed sequence of `re.sub`
passes over the whole text; each pass is modelled by an executable scanner
specialised to its concrete pattern, with the equivalence argued at the
definition. -/

/-- Does `pat` occur at the head of `s`? -/
def startsList : List Char → List Char → Bool
  | [], _ => true
  | _ :: _, [] => false
  | p :: ps, c :: cs => p = c && startsList ps cs

/-- Does `s` contain the character `c` (Python `c in s`)? -/
def hasChar (c : Char) (s : List Char) : Bool := s.any (· = c)

/-- Does `s` contain the substring `pat` (Python `pat in s`)? -/
def hasSub (pat : List Char) : List Char → Bool
  | [] => startsList pat []
  | s@(_ :: t) => startsList pat s || hasSub pat t

/-- Count the occurrences of `pat` in `s` (all start positions). -/
def countOccur (pat : List Char) : List Char → Nat
  | [] => 0
  | s@(_ :: t) => (if startsList pat s then 1 else 0) + countOccur pat t

/-- Python `text.split(sep)` for a one-character separator: always returns
at least one (possibly empty) piece. -/
def splitOn (sep : Char) : List Char → List (List Char)
  | [] => [[]]
  | c :: t =>
      match splitOn sep t with
      | [] => []
      | l :: ls => if c = sep then [] :: l :: ls else (c :: l) :: ls

/-- `text.split('\n')`. -/
def splitLines (s : List Char) : List (List Char) := splitOn '\n' s

/-- Python `'\n'.join(lines)`. -/
def joinLines : List (List Char) → List Char
  | [] => []
  | [l] => l
  | l :: ls => l ++ '\n' :: joinLines ls

/-- Drop leading whitespace. -/
def dropLeadWs : List Char → List Char
  | [] => []
  | c :: t => if isWsChar c then dropLeadWs t else c :: t

/-- Python `s.strip()` (leading and trailing whitespace removed; the
whitespace set of `str.isspace` coincides with the `\s` class modulo a few
control characters that never occur in these documents). -/
def pyStrip (s : List Char) : List Char :=
  dropLeadWs (dropLeadWs s.reverse).reverse

/-- The cell list of one table line (source lines 920 and 934):
`[h.strip() for h in line.split('|') if h.strip()]` — split on the pipe,
strip each piece, keep the nonempty ones. -/
def cellsOf (line : List Char) : List (List Char) :=
  ((splitOn '|' line).map pyStrip).filter (fun h => !h.isEmpty)

/-- One header cell (source line 927). -/
def thCell (h : List Char) : List Char :=
  ("<th style=\"border: 1px solid #ddd; padding: 8px; text-align: left; " ++
   "background-color: #f2f2f2;\">").toList ++ h ++ "</th>".toList

/-- One data cell (source line 938). -/
def tdCell (c : List Char) : List Char :=
  "<td style=\"border: 1px solid #ddd; padding: 8px;\">".toList ++ c ++ "</td>".toList

/-- One data row (source lines 933-939): skipped entirely when the line has
no nonempty cell. -/
def renderTableRow (line : List Char) : List Char :=
  let cells := cellsOf line
  if cells.isEmpty then []
  else "<tr>".toList ++ (cells.map tdCell).flatten ++ "</tr>".toList

/-- The HTML rendering of one accumulated table (source lines 913-943 and
the identical final-flush copy at lines 953-983): first line = header,
second = separator (ignored), rest = data rows.  Callers only invoke this
with at least two accumulated lines; the one-line case returns nothing,
mirroring the source, which drops such a fragment. -/
def renderTable (tableLines : List (List Char)) : List Char :=
  match tableLines with
  | header :: _sep :: dataLines =>
      "<table style=\"border-collapse: collapse; width: 100%; margin: 20px 0;\">".toList ++
      "<thead>".toList ++ "<tr>".toList ++
      ((cellsOf header).map thCell).flatten ++
      "</tr>".toList ++ "</thead>".toList ++ "<tbody>".toList ++
      (dataLines.map renderTableRow).flatten ++
      "</tbody>".toList ++ "</table>".toList
  | _ => []

/-- The line loop of `process_tables` (source lines 905-950 plus the final
flush at 952-983): `inTable`/`tableLines` is the accumulator state; a line
containing a pipe is stripped and accumulated; at the first non-table line,
and at end of input, an accumulation of at least two lines is flushed as a
rendered table (a shorter accumulation is silently dropped). -/
def processLines : List (List Char) → Bool → List (List Char) → List (List Char)
  | [], inTable, tableLines =>
      if inTable && decide (2 ≤ tableLines.length) then [renderTable tableLines] else []
  | line :: rest, inTable, tableLines =>
      if hasChar '|' line then
        processLines rest true (tableLines ++ [pyStrip line])
      else
        (if inTable && decide (2 ≤ tableLines.length) then [renderTable tableLines] else []) ++
        line :: processLines rest false []

/-- `process_tables` (source lines 899-985). -/
def process_tables (text : List Char) : List Char :=
  joinLines (processLines (splitLines text) false [])

/-- Apply a line transformation to every line of the text, as a
`re.MULTILINE` `^...$` substitution does (the transformations used below
never introduce a newline, so per-line application is exactly the
whole-text substitution). -/
def perLine (f : List Char → List Char) (s : List Char) : List Char :=
  joinLines ((splitLines s).map f)

/-- The three heading passes (source lines 991-993), which run in the order
`###`, `##`, `#`; on any single line they reduce to this prefix test,
because a rewritten line starts with `<` and is ignored by the later
passes, and `^## ` does not match a line starting `### `. -/
def headingLine (line : List Char) : List Char :=
  if startsList "### ".toList line then
    "<h3>".toList ++ line.drop 4 ++ "</h3>".toList
  else if startsList "## ".toList line then
    "<h2>".toList ++ line.drop 3 ++ "</h2>".toList
  else if startsList "# ".toList line then
    "<h1>".toList ++ line.drop 2 ++ "</h1>".toList
  else line

/-- Find the earliest occurrence of the closing delimiter: returns the text
before it and the text after it.  With `allowNl = false` the scan stops at
a newline (a `(.*?)` group without `re.DOTALL` cannot cross one). -/
def findCloseAt (delim : List Char) (allowNl : Bool) : List Char → Option (List Char × List Char)
  | [] => none
  | s@(c :: t) =>
      if startsList delim s then some ([], s.drop delim.length)
      else if !allowNl && c = '\n' then none
      else
        match findCloseAt delim allowNl t with
        | none => none
        | some (content, rest) => some (c :: content, rest)

/-- Fuelled scanner for `re.sub(dOpen (.*?) dClose, tagO \1 tagC, s)` with
literal delimiters: at each position, if the opening delimiter occurs and
the closing delimiter is found (honouring the newline restriction), the
minimal enclosed text is rewritten and scanning resumes after the match;
otherwise the scan advances one character, as the regex engine does.
Backtracking never changes the outcome for these patterns: a later closing
delimiter that would let the overall pattern succeed would already have
been reached by extending the non-greedy group to the first one. -/
def reSubPairF (dOpen dClose tagO tagC : List Char) (allowNl : Bool) :
    Nat → List Char → List Char
  | 0, _ => []
  | _ + 1, [] => []
  | n + 1, s@(c :: t) =>
      if startsList dOpen s then
        match findCloseAt dClose allowNl (s.drop dOpen.length) with
        | some (content, rest) =>
            tagO ++ content ++ tagC ++ reSubPairF dOpen dClose tagO tagC allowNl n rest
        | none => c :: reSubPairF dOpen dClose tagO tagC allowNl n t
      else c :: reSubPairF dOpen dClose tagO tagC allowNl n t

/-- Fuel-supplying wrapper for `reSubPairF`. -/
def reSubPair (dOpen dClose tagO tagC : List Char) (allowNl : Bool) (s : List Char) : List Char :=
  reSubPairF dOpen dClose tagO tagC allowNl (s.length + 1) s

/-- The blockquote pass (source line 1008). -/
def blockquoteLine (line : List Char) : List Char :=
  if startsList "> ".toList line then
    "<blockquote>".toList ++ line.drop 2 ++ "</blockquote>".toList
  else line

/-- The unordered-list item pass (source line 1011). -/
def liUnordLine (line : List Char) : List Char :=
  if startsList "- ".toList line then
    "<li>".toList ++ line.drop 2 ++ "</li>".toList
  else line

/-- The ordered-list item pass (source line 1016), `^\d+\. (.*?)$`. -/
def liOrdLine (line : List Char) : List Char :=
  let digits := line.takeWhile Char.isDigit
  let rest := line.drop digits.length
  if !digits.isEmpty && startsList ". ".toList rest then
    "<li>".toList ++ rest.drop 2 ++ "</li>".toList
  else line

/-- The horizontal-rule pass (source line 1021), `^---$`. -/
def hrLine (line : List Char) : List Char :=
  if line = "---".toList then "<hr>".toList else line

/-- Fuelled scanner for the link pass (source line 1024),
`\[(.*?)\]\((.*?)\)` without DOTALL: at a `[`, the link text runs to the
first `](` on the line and the URL to the first `)` after it on the line.
(The engine never succeeds through a later `](`: a closing `)` on the line
after a later `](` is also a closing `)` for the first one.) -/
def linkSubF : Nat → List Char → List Char
  | 0, _ => []
  | _ + 1, [] => []
  | n + 1, c :: t =>
      if c = '[' then
        match findCloseAt "](".toList false t with
        | some (text, rest1) =>
            match findCloseAt ")".toList false rest1 with
            | some (url, rest2) =>
                "<a href=\"".toList ++ url ++ "\" target=\"_blank\">".toList ++
                text ++ "</a>".toList ++ linkSubF n rest2
            | none => c :: linkSubF n t
        | none => c :: linkSubF n t
      else c :: linkSubF n t

/-- Fuel-supplying wrapper for `linkSubF`. -/
def linkSub (s : List Char) : List Char := linkSubF (s.length + 1) s

/-- Fuelled scanner for Python `s.replace(pat, repl)` (leftmost,
non-overlapping). -/
def replaceAllF (pat repl : List Char) : Nat → List Char → List Char
  | 0, _ => []
  | _ + 1, [] => []
  | n + 1, s@(c :: t) =>
      if startsList pat s then repl ++ replaceAllF pat repl n (s.drop pat.length)
      else c :: replaceAllF pat repl n t

/-- Fuel-supplying wrapper for `replaceAllF`. -/
def replaceAll (pat repl : List Char) (s : List Char) : List Char :=
  replaceAllF pat repl (s.length + 1) s

/-- `markdown_to_html` (source lines 896-1036), pass for pass in source
order. -/
def markdown_to_html (text : List Char) : List Char :=
  let html := process_tables text
  let html := perLine headingLine html
  let html := reSubPair "**".toList "**".toList "<strong>".toList "</strong>".toList false html
  let html := reSubPair "*".toList "*".toList "<em>".toList "</em>".toList false html
  let html := reSubPair "`".toList "`".toList "<code>".toList "</code>".toList false html
  let html := reSubPair "```".toList "```".toList "<pre><code>".toList "</code></pre>".toList true html
  let html := perLine blockquoteLine html
  let html := perLine liUnordLine html
  let html := reSubPair "<li>".toList "</li>".toList "<ul><li>".toList "</li></ul>".toList true html
  let html := perLine liOrdLine html
  let html := reSubPair "<li>".toList "</li>".toList "<ol><li>".toList "</li></ol>".toList true html
  let html := perLine hrLine html
  let html := linkSub html
  let html := replaceAll "\n".toList "<br>".toList
    (replaceAll "\n\n".toList "</p><p>".toList html)
  let html := "<p>".toList ++ html ++ "</p>".toList
  let html := replaceAll "</p><p></p>".toList "</p>".toList html
  let html := replaceAll "<p></p>".toList "".toList html
  html

/-! ## Part 7: the report markup extractor

Source: `scripts/ai_analyze_report2.py`, lines 175-271
(`parse_index_html`). -/

/-- The remainder of `s` after the first occurrence of `pat` (none when
`pat` does not occur). -/
def afterSub (pat : List Char) : List Char → Option (List Char)
  | [] => if startsList pat [] then some [] else none
  | s@(_ :: t) =>
      if startsList pat s then some (s.drop pat.length) else afterSub pat t

/-- `re.search(heading + r'(.*?)</div>', content, re.DOTALL)`: the captured
slice between the first occurrence of the heading and the next `</div>`
(the leftmost match of the whole pattern starts at the first heading
occurrence: if no `</div>` follows it, none follows any later occurrence
either). -/
def sectionSlice (heading : List Char) (content : List Char) : Option (List Char) :=
  match afterSub heading content with
  | none => none
  | some rest =>
      match findCloseAt "</div>".toList true rest with
      | some (slice, _) => some slice
      | none => none

/-- Fuelled scanner for `re.findall(tOpen + r'[^>]*>(.*?)' + tClose, s)`:
at each occurrence of `tOpen`, the attribute part runs to the first `>`
(the greedy `[^>]*` is deterministic here, since it must stop exactly at
the first `>`), and the captured content to the first occurrence of
`tClose` (honouring the newline restriction when DOTALL is off); on any
failure the scan advances one character. -/
def findAllTagF (tOpen tClose : List Char) (allowNl : Bool) :
    Nat → List Char → List (List Char)
  | 0, _ => []
  | _ + 1, [] => []
  | n + 1, s@(_ :: t) =>
      if startsList tOpen s then
        let body := s.drop tOpen.length
        let attrs := body.takeWhile (fun d => !(d = '>'))
        let afterAttrs := body.drop attrs.length
        if startsList ['>'] afterAttrs then
          match findCloseAt tClose allowNl (afterAttrs.drop 1) with
          | some (content, rest2) =>
              content :: findAllTagF tOpen tClose allowNl n rest2
          | none => findAllTagF tOpen tClose allowNl n t
        else findAllTagF tOpen tClose allowNl n t
      else findAllTagF tOpen tClose allowNl n t

/-- Fuel-supplying wrapper for `findAllTagF`. -/
def findAllTag (tOpen tClose : List Char) (allowNl : Bool) (s : List Char) : List (List Char) :=
  findAllTagF tOpen tClose allowNl (s.length + 1) s

/-- `re.findall(r'<th[^>]*>(.*?)<\/th>', sect)` (source lines 220, 239,
256; no DOTALL). -/
def tableHeaders (sect : List Char) : List (List Char) :=
  findAllTag "<th".toList "</th>".toList false sect

/-- `re.findall(r'<tr[^>]*>(.*?)<\/tr>', sect, re.DOTALL)` (source lines
222, 241, 258). -/
def tableRowsRaw (sect : List Char) : List (List Char) :=
  findAllTag "<tr".toList "</tr>".toList true sect

/-- One scraped row (source lines 223-229): rows without a `<td` are
ignored; the cell values are extracted with DOTALL and the row is kept only
when the cell count equals the header count, in which case header i is
paired with the stripped value i.  (The source stores the pairs in a dict;
the row is modelled as the ordered association list of the same pairs,
which has the same key set.) -/
def buildRow (headers : List (List Char)) (row : List Char) :
    Option (List (List Char × List Char)) :=
  if hasSub "<td".toList row then
    if (findAllTag "<td".toList "</td>".toList true row).length = headers.length then
      some (headers.zip ((findAllTag "<td".toList "</td>".toList true row).map pyStrip))
    else none
  else none

/-- `row_data.get(key)` on the modelled row: Python dicts keep the last
value for a duplicated key, so the lookup scans from the right. -/
def rowGet (row : List (List Char × List Char)) (key : List Char) : Option (List Char) :=
  (row.reverse.find? (fun p => p.1 = key)).map (·.2)

/-- Python truthiness of `row_data.get(key)`: present and nonempty. -/
def truthyGet (row : List (List Char × List Char)) (key : List Char) : Bool :=
  match rowGet row key with
  | some v => !v.isEmpty
  | none => false

/-- The extra filter applied to Statistics rows (source line 231):
`row_data.get('Label') or row_data.get('Sampler Name') or
row_data.get('Requests')`. -/
def statRowKeep (row : List (List Char × List Char)) : Bool :=
  truthyGet row "Label".toList || truthyGet row "Sampler Name".toList ||
    truthyGet row "Requests".toList

/-- The rows of one scraped section table (source lines 219-232 for
Statistics, with `statFilter = true`; lines 238-249 and 255-266 for the
two error tables, with `statFilter = false`). -/
def tableRows (sect : List Char) (statFilter : Bool) :
    List (List (List Char × List Char)) :=
  (tableRowsRaw sect).filterMap fun r =>
    match buildRow (tableHeaders sect) r with
    | some row =>
        if statFilter then (if statRowKeep row then some row else none)
        else some row
    | none => none

/-- The key/value pairs of the Test-and-Report-information section (source
lines 190-200).  Note the source searches the first `<td>` twice, once
without and once with DOTALL, so when the first cell of a row spans several
lines the key comes from a later cell than the value. -/
def testInfoPairs (content : List Char) : List (List Char × List Char) :=
  match sectionSlice "<h2>Test and Report information</h2>".toList content with
  | none => []
  | some sect =>
      (findAllTag "<tr".toList "</tr>".toList true sect).filterMap fun item =>
        match (findAllTag "<td".toList "</td>".toList false item).head?,
              (findAllTag "<td".toList "</td>".toList true item).head? with
        | some k, some v => some (pyStrip k, pyStrip v)
        | _, _ => none

/-- The dashboard content recovered from one generated report (source
lines 181-187).  The APDEX sub-extraction (source lines 202-213, two
`re.search` calls with alternations) is left unmodelled — no claim
references it — so the two option fields stay `none` here. -/
structure ReportDashboard where
  test_info : List (List Char × List Char)
  apdex_score : Option (List Char)
  apdex_level : Option (List Char)
  statistics : List (List (List Char × List Char))
  errors : List (List (List Char × List Char))
  top_errors : List (List (List Char × List Char))
deriving Repr, DecidableEq

/-- The headers of the Statistics section of a document (as extracted at
source line 220). -/
def statisticsHeaders (content : List Char) : List (List Char) :=
  match sectionSlice "<h2>Statistics</h2>".toList content with
  | none => []
  | some sect => tableHeaders sect

/-- The headers of the Errors section (source line 239). -/
def errorsHeaders (content : List Char) : List (List Char) :=
  match sectionSlice "<h2>Errors</h2>".toList content with
  | none => []
  | some sect => tableHeaders sect

/-- The headers of the Top-5-Errors section (source line 256). -/
def topErrorsHeaders (content : List Char) : List (List Char) :=
  match sectionSlice "<h2>Top 5 Errors by sampler</h2>".toList content with
  | none => []
  | some sect => tableHeaders sect

/-- `parse_index_html` (source lines 175-271). -/
def parse_index_html (content : List Char) : ReportDashboard :=
  { test_info := testInfoPairs content
    apdex_score := none
    apdex_level := none
    statistics :=
      match sectionSlice "<h2>Statistics</h2>".toList content with
      | none => []
      | some sect => tableRows sect true
    errors :=
      match sectionSlice "<h2>Errors</h2>".toList content with
      | none => []
      | some sect => tableRows sect false
    top_errors :=
      match sectionSlice "<h2>Top 5 Errors by sampler</h2>".toList content with
      | none => []
      | some sect => tableRows sect false }

/-- A small generated report used as the concrete witness document. -/
def sampleDashboardHtml : List Char :=
  ("<h2>Statistics</h2><table><tr><th>Label</th><th>Requests</th></tr>" ++
   "<tr><td>L1</td><td>5</td></tr></table></div>").toList

end AIJmeter

namespace AIJmeter

/-! ## Theorems: Part 1 lemma library (matcher algebra) -/

/-- Single-character unfolding of the matcher through `stepState`
(definitional). -/
theorem mrun_cons (st : List Tok) (c : Char) (X : List Char) :
    mrun st (c :: X) = (match stepState st c with
      | none => MRes.fail
      | some none => .succ (c :: X)
      | some (some st') => mrun st' X) := rfl

/-- Matching on a concatenation: a mismatch is final, a success carries the
unconsumed input along, and an exhausted input resumes from the pending
state. -/
theorem mrun_append (p : List Tok) (s X : List Char) :
    mrun p (s ++ X) = (match mrun p s with
      | .succ rest => MRes.succ (rest ++ X)
      | .fail => .fail
      | .eof st => mrun st X) := by
  induction s generalizing p with
  | nil =>
      cases p with
      | nil => simp [mrun]; cases X with | nil => simp [mrun] | cons c t => rfl
      | cons tok ts => simp [mrun]
  | cons c t ih =>
      rw [List.cons_append, mrun_cons, mrun_cons]
      cases hst : stepState p c with
      | none => simp
      | some o =>
          cases o with
          | none => simp
          | some st' => simpa using ih st'

/-- A failing match stays failing on any extension of the input. -/
theorem mrun_append_fail (p : List Tok) (s X : List Char)
    (h : mrun p s = .fail) : mrun p (s ++ X) = .fail := by
  rw [mrun_append, h]

/-- A successful match never grows the input. -/
theorem mrun_succ_le (p : List Tok) (s : List Char) :
    ∀ rest, mrun p s = .succ rest → rest.length ≤ s.length := by
  induction s generalizing p with
  | nil =>
      intro rest h
      cases p with
      | nil => simp [mrun] at h; simp [← h]
      | cons tok ts => simp [mrun] at h
  | cons c t ih =>
      intro rest h
      rw [mrun_cons] at h
      cases hst : stepState p c with
      | none => simp [hst] at h
      | some o =>
          cases o with
          | none => simp [hst] at h; simp [← h]
          | some st' =>
              simp only [hst] at h
              exact Nat.le_succ_of_le (ih st' rest h)

/-- A match of `origTokens` consumes at least one character (its head token
is the nonempty literal `<div`). -/
theorem mrun_origTokens_succ_lt (s rest : List Char)
    (h : mrun origTokens s = .succ rest) : rest.length < s.length := by
  cases s with
  | nil => simp [mrun, origTokens] at h
  | cons c t =>
      rw [mrun_cons] at h
      cases hst : stepState origTokens c with
      | none => simp [hst] at h
      | some o =>
          cases o with
          | none =>
              exfalso
              revert hst
              simp only [origTokens]
              rw [show ("<div".toList) = '<' :: "div".toList from rfl]
              simp only [stepState]
              split <;> simp
          | some st' =>
              simp only [hst] at h
              have := mrun_succ_le st' t rest h
              simp
              omega

/-- Fuel irrelevance for `reSubAiF`: any fuel above the input length gives
the same result. -/
theorem reSubAiF_fuel (r : List Char) :
    ∀ n m s, s.length < n → s.length < m → reSubAiF r n s = reSubAiF r m s := by
  intro n
  induction n with
  | zero => intro m s h; omega
  | succ n ih =>
      intro m s hn hm
      cases m with
      | zero => omega
      | succ m =>
          cases hmr : mrun origTokens s with
          | succ rest =>
              have hlt := mrun_origTokens_succ_lt s rest hmr
              simp only [reSubAiF, hmr]
              rw [ih m rest (by omega) (by omega)]
          | fail =>
              cases s with
              | nil => rfl
              | cons c t =>
                  simp only [reSubAiF, hmr]
                  simp at hn hm
                  rw [ih m t (by omega) (by omega)]
          | eof st =>
              cases s with
              | nil => rfl
              | cons c t =>
                  simp only [reSubAiF, hmr]
                  simp at hn hm
                  rw [ih m t (by omega) (by omega)]

/-- Fuel-free unfolding equation for `reSubAi`. -/
theorem reSubAi_eq (r s : List Char) :
    reSubAi r s = (match mrun origTokens s with
      | .succ rest => r ++ reSubAi r rest
      | _ =>
          match s with
          | [] => []
          | c :: t => c :: reSubAi r t) := by
  show reSubAiF r (s.length + 1) s = _
  cases hmr : mrun origTokens s with
  | succ rest =>
      have hlt := mrun_origTokens_succ_lt s rest hmr
      simp only [reSubAiF, hmr]
      rw [reSubAiF_fuel r s.length (rest.length + 1) rest (by omega) (by omega)]
      rfl
  | fail =>
      cases s with
      | nil => rfl
      | cons c t => simp only [reSubAiF, hmr]; rfl
  | eof st =>
      cases s with
      | nil => rfl
      | cons c t => simp only [reSubAiF, hmr]; rfl

/-- Fuel irrelevance for `reSearchAiF`. -/
theorem reSearchAiF_fuel :
    ∀ n m s, s.length < n → s.length < m → reSearchAiF n s = reSearchAiF m s := by
  intro n
  induction n with
  | zero => intro m s h; omega
  | succ n ih =>
      intro m s hn hm
      cases m with
      | zero => omega
      | succ m =>
          cases hmr : mrun origTokens s with
          | succ rest => simp only [reSearchAiF, hmr]
          | fail =>
              cases s with
              | nil => rfl
              | cons c t =>
                  simp only [reSearchAiF, hmr]
                  simp at hn hm
                  rw [ih m t (by omega) (by omega)]
          | eof st =>
              cases s with
              | nil => rfl
              | cons c t =>
                  simp only [reSearchAiF, hmr]
                  simp at hn hm
                  rw [ih m t (by omega) (by omega)]

/-- Fuel-free unfolding equation for `reSearchAi`. -/
theorem reSearchAi_eq (s : List Char) :
    reSearchAi s = (match mrun origTokens s with
      | .succ _ => true
      | _ =>
          match s with
          | [] => false
          | _ :: t => reSearchAi t) := by
  show reSearchAiF (s.length + 1) s = _
  cases hmr : mrun origTokens s with
  | succ rest => simp only [reSearchAiF, hmr]
  | fail =>
      cases s with
      | nil => rfl
      | cons c t => simp only [reSearchAiF, hmr]; rfl
  | eof st =>
      cases s with
      | nil => rfl
      | cons c t => simp only [reSearchAiF, hmr]; rfl

/-- Every state reachable by one consuming step is listed in `succStates`. -/
theorem stepState_mem_succStates (st : List Tok) (c : Char) (st' : List Tok)
    (h : stepState st c = some (some st')) : st' ∈ succStates st := by
  induction st with
  | nil => simp [stepState] at h
  | cons tok ts ih =>
      cases tok with
      | lit l =>
          cases l with
          | nil =>
              simp only [stepState] at h
              simp only [succStates]
              exact ih h
          | cons a as =>
              simp only [stepState] at h
              by_cases hac : a = c
              · simp only [hac, if_true] at h
                cases as with
                | nil => simp_all [succStates]
                | cons b bs => simp_all [succStates]
              · simp [hac] at h
      | ws b =>
          simp only [stepState] at h
          by_cases hws : isWsChar c
          · simp only [hws, if_true] at h
            injection h with h; injection h with h
            simp [succStates, h]
          · cases b with
            | true => simp [hws] at h
            | false =>
                simp only [hws, if_false, Bool.false_eq_true] at h
                simp only [succStates, List.mem_cons]
                exact Or.inr (ih h)

/-- The tail of a pattern contributes all of its states to the whole
pattern. -/
theorem stateTails_subset_cons (tok : Tok) (ts : List Tok) :
    stateTails ts ⊆ stateTails (tok :: ts) := by
  cases tok with
  | lit l => intro st h; simp [stateTails]; exact Or.inr h
  | ws b => intro st h; simp [stateTails]; right; right; exact h

/-- Members of `litSuffixStates l ts` have a nonempty head literal followed
by `ts`. -/
theorem litSuffixStates_shape (l : List Char) (ts : List Tok) (st : List Tok)
    (h : st ∈ litSuffixStates l ts) : ∃ c cs, st = .lit (c :: cs) :: ts := by
  induction l with
  | nil => simp [litSuffixStates] at h
  | cons a as ih =>
      simp only [litSuffixStates, List.mem_cons] at h
      rcases h with h | h
      · exact ⟨a, as, h⟩
      · exact ih h

/-- A nonempty literal list is the head entry of its own suffix-state
list. -/
theorem litSuffixStates_self (c : Char) (cs : List Char) (ts : List Tok) :
    Tok.lit (c :: cs) :: ts ∈ litSuffixStates (c :: cs) ts := by
  simp [litSuffixStates]

/-- Dropping the consumed head character of a pending literal stays inside
the suffix-state list. -/
theorem litSuffixStates_shift (l : List Char) (ts : List Tok) (c : Char)
    (cs : List Char) (h : Tok.lit (c :: cs) :: ts ∈ litSuffixStates l ts)
    (hcs : cs ≠ []) : Tok.lit cs :: ts ∈ litSuffixStates l ts := by
  induction l with
  | nil => simp [litSuffixStates] at h
  | cons a as ih =>
      simp only [litSuffixStates, List.mem_cons] at h ⊢
      rcases h with h | h
      · have h1 : c :: cs = a :: as := by
          have := congrArg (fun st => st) h
          injection h with h2 _
          injection h2
        injection h1 with h1a h1b
        subst h1b
        cases cs with
        | nil => exact absurd rfl hcs
        | cons b bs => exact Or.inr (litSuffixStates_self b bs ts)
      · exact Or.inr (ih h)

/-- A well-formed pattern is one of its own reachable states. -/
theorem self_mem_stateTails (p : List Tok) (hp : patOk p = true) :
    p ∈ stateTails p := by
  cases p with
  | nil => simp [stateTails]
  | cons tok ts =>
      cases tok with
      | lit l =>
          cases l with
          | nil => simp [patOk] at hp
          | cons c cs =>
              simp only [stateTails, List.mem_append]
              exact Or.inl (litSuffixStates_self c cs ts)
      | ws b => simp [stateTails]

/-- Well-formedness is inherited by the pattern tail. -/
theorem patOk_tail (tok : Tok) (ts : List Tok) (h : patOk (tok :: ts) = true) :
    patOk ts = true := by
  simp only [patOk, List.all_cons, Bool.and_eq_true] at h
  exact h.2

/-- Shape of reachable states of a well-formed pattern: empty, or headed by
a whitespace gap, or headed by a nonempty literal. -/
theorem stateTails_shape (p : List Tok) (hp : patOk p = true) (st : List Tok)
    (h : st ∈ stateTails p) :
    st = [] ∨ (∃ b ts, st = .ws b :: ts) ∨ (∃ c cs ts, st = .lit (c :: cs) :: ts) := by
  induction p with
  | nil => simp [stateTails] at h; exact Or.inl h
  | cons tok ts ih =>
      cases tok with
      | lit l =>
          simp only [stateTails, List.mem_append] at h
          rcases h with h | h
          · obtain ⟨c, cs, rfl⟩ := litSuffixStates_shape l ts st h
            exact Or.inr (Or.inr ⟨c, cs, ts, rfl⟩)
          · exact ih (patOk_tail _ _ hp) h
      | ws b =>
          simp only [stateTails, List.mem_cons] at h
          rcases h with rfl | rfl | h
          · exact Or.inr (Or.inl ⟨b, ts, rfl⟩)
          · exact Or.inr (Or.inl ⟨false, ts, rfl⟩)
          · exact ih (patOk_tail _ _ hp) h

/-- The reachable-state set of a well-formed pattern is closed under
consuming steps. -/
theorem stateTails_closed (p : List Tok) (hp : patOk p = true) :
    ∀ st ∈ stateTails p, ∀ st' ∈ succStates st, st' ∈ stateTails p := by
  induction p with
  | nil =>
      intro st hst st' hst'
      simp only [stateTails, List.mem_singleton] at hst
      subst hst
      simp [succStates] at hst'
  | cons tok ts ih =>
      intro st hst st' hst'
      cases tok with
      | lit l =>
          simp only [stateTails, List.mem_append] at hst
          rcases hst with hst | hst
          · obtain ⟨c, cs, rfl⟩ := litSuffixStates_shape l ts st hst
            simp only [succStates, List.mem_singleton] at hst'
            subst hst'
            by_cases hcs : cs = []
            · subst hcs
              simp only [if_true]
              exact stateTails_subset_cons _ _
                (self_mem_stateTails ts (patOk_tail _ _ hp))
            · simp only [hcs, if_false]
              simp only [stateTails, List.mem_append]
              exact Or.inl (litSuffixStates_shift l ts c cs hst hcs)
          · exact stateTails_subset_cons _ _
              (ih (patOk_tail _ _ hp) st hst st' hst')
      | ws b =>
          simp only [stateTails, List.mem_cons] at hst
          rcases hst with rfl | rfl | hst
          · simp only [succStates, List.mem_cons] at hst'
            rcases hst' with rfl | hst'
            · simp [stateTails]
            · exact stateTails_subset_cons _ _
                (ih (patOk_tail _ _ hp) ts
                  (self_mem_stateTails ts (patOk_tail _ _ hp)) st' hst')
          · simp only [succStates, List.mem_cons] at hst'
            rcases hst' with rfl | hst'
            · simp [stateTails]
            · exact stateTails_subset_cons _ _
                (ih (patOk_tail _ _ hp) ts
                  (self_mem_stateTails ts (patOk_tail _ _ hp)) st' hst')
          · exact stateTails_subset_cons _ _
              (ih (patOk_tail _ _ hp) st hst st' hst')

/-! ## Theorems: Part 1 concrete checks (by evaluation) -/

/-- `origTokens` has no empty literal. -/
theorem chk_patOk : patOk origTokens = true := by decide

/-- Every nonempty suffix of the replacement text before the interpolated
name fails against the Unpatched pattern (in particular the pattern cannot
match starting inside that text, whatever follows). -/
theorem chk_front_suffixes :
    ∀ u ∈ List.tails replFront, u ≠ [] → mrun origTokens u = .fail := by decide

/-- Every nonempty suffix of the replacement text after the interpolated
name fails against the Unpatched pattern. -/
theorem chk_back_suffixes :
    ∀ u ∈ List.tails replBack, u ≠ [] → mrun origTokens u = .fail := by decide

/-- Every pending matcher state fails on the replacement text before the
interpolated name: a partial match entering an inserted replacement block
dies inside its first characters, whatever the link name. -/
theorem chk_states_front :
    ∀ st ∈ aiStates, st ≠ [] → mrun st replFront = .fail := by decide

/-- The first character of the Unpatched pattern is `<`; any other first
character fails immediately. -/
theorem mrun_origTokens_head_ne (x : Char) (w : List Char) (hx : x ≠ '<') :
    mrun origTokens (x :: w) = .fail := by
  rw [mrun_cons]
  have hstep : stepState origTokens x = none := by
    simp only [origTokens]
    rw [show ("<div".toList) = '<' :: "div".toList from rfl]
    simp only [stepState]
    rw [if_neg (fun h => hx h.symm)]
  rw [hstep]

/-! ## Theorems: Part 1 main development -/

/-- Decomposition of a suffix of a concatenation. -/
theorem suffix_append_cases {v a b : List Char} (h : v <:+ a ++ b) :
    v <:+ b ∨ ∃ aa, aa <:+ a ∧ aa ≠ [] ∧ v = aa ++ b := by
  induction a with
  | nil => exact Or.inl (by simpa using h)
  | cons x a2 ih =>
      rw [List.cons_append, List.suffix_cons_iff] at h
      rcases h with h | h
      · exact Or.inr ⟨x :: a2, List.suffix_refl _, by simp, by simpa using h⟩
      · rcases ih h with h2 | ⟨aa, haa, hne, rfl⟩
        · exact Or.inl h2
        · exact Or.inr ⟨aa, haa.trans (List.suffix_cons x a2), hne, rfl⟩

/-- A match of the Unpatched pattern cannot start strictly inside an
inserted replacement block, provided the interpolated link name contains no
`<` character: every nonempty suffix of the block is a dead end for the
matcher, whatever follows it. -/
theorem newAiSection_suffix_fail (name : List Char) (hb : '<' ∉ name) :
    ∀ v, v <:+ newAiSection name → v ≠ [] → ∀ Z, mrun origTokens (v ++ Z) = .fail := by
  intro v hv hne Z
  rw [show newAiSection name = replFront ++ (name ++ replBack) from by
    simp [newAiSection]] at hv
  rcases suffix_append_cases hv with hv | ⟨aa, haa, hane, rfl⟩
  · rcases suffix_append_cases hv with hv | ⟨nn, hnn, hnne, rfl⟩
    · -- suffix of the trailing replacement text
      have hf := chk_back_suffixes v ((List.mem_tails v replBack).mpr hv) hne
      exact mrun_append_fail _ _ _ hf
    · -- starts inside the interpolated name: first character is not `<`
      cases nn with
      | nil => exact absurd rfl hnne
      | cons x w =>
          have hx : x ∈ name := hnn.sublist.mem (by simp)
          have hxlt : x ≠ '<' := fun hEq => hb (hEq ▸ hx)
          rw [List.cons_append, List.cons_append]
          exact mrun_origTokens_head_ne x _ hxlt
  · -- starts inside the leading replacement text
    have hf := chk_front_suffixes aa ((List.mem_tails aa replFront).mpr haa) hane
    rw [List.append_assoc]
    exact mrun_append_fail _ _ _ hf

/-- If no match starts inside `u` (with continuation `t`) and none starts
inside `t`, then none starts inside `u ++ t`. -/
theorem reSearchAi_append (u t : List Char)
    (h1 : ∀ v, v <:+ u → v ≠ [] → mrun origTokens (v ++ t) = .fail)
    (h2 : reSearchAi t = false) : reSearchAi (u ++ t) = false := by
  induction u with
  | nil => simpa using h2
  | cons c u2 ih =>
      rw [List.cons_append, reSearchAi_eq]
      have hc : mrun origTokens ((c :: u2) ++ t) = .fail :=
        h1 (c :: u2) (List.suffix_refl _) (by simp)
      rw [List.cons_append] at hc
      rw [hc]
      exact ih (fun v hv hne => h1 v (hv.trans (List.suffix_cons c u2)) hne)

/-- SPAN: a match attempt that was already under way when the scan reached
position `s` (state `st`) cannot succeed on the rewritten document
`reSubAi (newAiSection name) s` unless it would also have succeeded on `s`
itself.  This holds for every link name: an attempt crossing into an
inserted block dies inside `replFront` by `chk_states_front`. -/
theorem span_noSucc (name : List Char) :
    ∀ n, ∀ s : List Char, s.length ≤ n → ∀ st ∈ aiStates, st ≠ [] →
      (∀ r0, mrun st s ≠ .succ r0) →
      ∀ r1, mrun st (reSubAi (newAiSection name) s) ≠ .succ r1 := by
  intro n
  induction n with
  | zero =>
      intro s hs st hmem hne hnot r1
      have : s = [] := by cases s with | nil => rfl | cons a b => simp at hs
      subst this
      rw [reSubAi_eq]
      rcases stateTails_shape origTokens chk_patOk st hmem with rfl | ⟨b, ts, rfl⟩ | ⟨c, cs, ts, rfl⟩
      · exact absurd rfl hne
      · simp [mrun]
      · simp [mrun]
  | succ n ih =>
      intro s hs st hmem hne hnot r1
      cases hmr : mrun origTokens s with
      | succ rest =>
          -- an inserted block starts here; any pending state dies inside it
          have hout : reSubAi (newAiSection name) s =
              replFront ++ (name ++ replBack ++ reSubAi (newAiSection name) rest) := by
            rw [reSubAi_eq, hmr]
            simp [newAiSection]
          rw [hout, mrun_append, chk_states_front st hmem hne]
          simp
      | fail =>
          cases s with
          | nil =>
              rw [show reSubAi (newAiSection name) [] = ([] : List Char) from rfl]
              rcases stateTails_shape origTokens chk_patOk st hmem with rfl | ⟨b, ts, rfl⟩ | ⟨c, cs, ts, rfl⟩
              · exact absurd rfl hne
              · simp [mrun]
              · simp [mrun]
          | cons c t =>
              have hout : reSubAi (newAiSection name) (c :: t) =
                  c :: reSubAi (newAiSection name) t := by
                rw [reSubAi_eq, hmr]
              rw [hout]
              intro hcon
              rw [mrun_cons] at hcon
              cases hst : stepState st c with
              | none => rw [hst] at hcon; exact MRes.noConfusion hcon
              | some o =>
                  cases o with
                  | none =>
                      -- the pending state accepts here: it also accepted on the
                      -- original document, against the hypothesis
                      have : mrun st (c :: t) = .succ (c :: t) := by rw [mrun_cons, hst]
                      exact hnot (c :: t) this
                  | some st' =>
                      rw [hst] at hcon
                      by_cases hemp : st' = []
                      · subst hemp
                        have : mrun st (c :: t) = .succ t := by
                          rw [mrun_cons, hst]
                          cases t with | nil => simp [mrun] | cons a b => rfl
                        exact hnot t this
                      · have hmem' : st' ∈ aiStates :=
                          stateTails_closed origTokens chk_patOk st hmem st'
                            (stepState_mem_succStates st c st' hst)
                        have hnot' : ∀ r0, mrun st' t ≠ .succ r0 := by
                          intro r0 hr0
                          exact hnot r0 (by rw [mrun_cons, hst]; exact hr0)
                        exact ih t (by simp at hs; omega) st' hmem' hemp hnot' r1 hcon
      | eof st0 =>
          cases s with
          | nil =>
              rw [show reSubAi (newAiSection name) [] = ([] : List Char) from rfl]
              rcases stateTails_shape origTokens chk_patOk st hmem with rfl | ⟨b, ts, rfl⟩ | ⟨c, cs, ts, rfl⟩
              · exact absurd rfl hne
              · simp [mrun]
              · simp [mrun]
          | cons c t =>
              have hout : reSubAi (newAiSection name) (c :: t) =
                  c :: reSubAi (newAiSection name) t := by
                rw [reSubAi_eq, hmr]
              rw [hout]
              intro hcon
              rw [mrun_cons] at hcon
              cases hst : stepState st c with
              | none => rw [hst] at hcon; exact MRes.noConfusion hcon
              | some o =>
                  cases o with
                  | none =>
                      have : mrun st (c :: t) = .succ (c :: t) := by rw [mrun_cons, hst]
                      exact hnot (c :: t) this
                  | some st' =>
                      rw [hst] at hcon
                      by_cases hemp : st' = []
                      · subst hemp
                        have : mrun st (c :: t) = .succ t := by
                          rw [mrun_cons, hst]
                          cases t with | nil => simp [mrun] | cons a b => rfl
                        exact hnot t this
                      · have hmem' : st' ∈ aiStates :=
                          stateTails_closed origTokens chk_patOk st hmem st'
                            (stepState_mem_succStates st c st' hst)
                        have hnot' : ∀ r0, mrun st' t ≠ .succ r0 := by
                          intro r0 hr0
                          exact hnot r0 (by rw [mrun_cons, hst]; exact hr0)
                        exact ih t (by simp at hs; omega) st' hmem' hemp hnot' r1 hcon

/-- After one rewriting pass the Unpatched pattern occurs nowhere in the
document, provided the interpolated link name contains no `<`: matches
cannot survive (they were all replaced), cannot start inside an inserted
block (`newAiSection_suffix_fail`), and cannot span from untouched text
into an inserted block (`span_noSucc`). -/
theorem reSearchAi_reSubAi (name : List Char) (hb : '<' ∉ name) :
    ∀ n, ∀ s : List Char, s.length ≤ n →
      reSearchAi (reSubAi (newAiSection name) s) = false := by
  intro n
  induction n with
  | zero =>
      intro s hs
      have : s = [] := by cases s with | nil => rfl | cons a b => simp at hs
      subst this
      rfl
  | succ n ih =>
      intro s hs
      cases hmr : mrun origTokens s with
      | succ rest =>
          have hout : reSubAi (newAiSection name) s =
              newAiSection name ++ reSubAi (newAiSection name) rest := by
            rw [reSubAi_eq, hmr]
          rw [hout]
          apply reSearchAi_append
          · intro v hv hne
            exact newAiSection_suffix_fail name hb v hv hne _
          · exact ih rest (by have := mrun_origTokens_succ_lt s rest hmr; omega)
      | fail =>
          cases s with
          | nil => rfl
          | cons c t =>
              have hout : reSubAi (newAiSection name) (c :: t) =
                  c :: reSubAi (newAiSection name) t := by
                rw [reSubAi_eq, hmr]
              have hsp : ∀ r1, mrun origTokens
                  (c :: reSubAi (newAiSection name) t) ≠ .succ r1 := by
                intro r1 hr1
                have hnot : ∀ r0, mrun origTokens (c :: t) ≠ .succ r0 := by
                  intro r0 h0; rw [hmr] at h0; exact MRes.noConfusion h0
                have := span_noSucc name (n + 1) (c :: t) hs origTokens
                  (self_mem_stateTails origTokens chk_patOk) (by simp [origTokens])
                  hnot r1
                rw [hout] at this
                exact this hr1
              rw [hout, reSearchAi_eq]
              cases hh : mrun origTokens (c :: reSubAi (newAiSection name) t) with
              | succ r => exact absurd hh (hsp r)
              | fail => exact ih t (by simp at hs; omega)
              | eof st0 => exact ih t (by simp at hs; omega)
      | eof st1 =>
          cases s with
          | nil => rfl
          | cons c t =>
              have hout : reSubAi (newAiSection name) (c :: t) =
                  c :: reSubAi (newAiSection name) t := by
                rw [reSubAi_eq, hmr]
              have hsp : ∀ r1, mrun origTokens
                  (c :: reSubAi (newAiSection name) t) ≠ .succ r1 := by
                intro r1 hr1
                have hnot : ∀ r0, mrun origTokens (c :: t) ≠ .succ r0 := by
                  intro r0 h0; rw [hmr] at h0; exact MRes.noConfusion h0
                have := span_noSucc name (n + 1) (c :: t) hs origTokens
                  (self_mem_stateTails origTokens chk_patOk) (by simp [origTokens])
                  hnot r1
                rw [hout] at this
                exact this hr1
              rw [hout, reSearchAi_eq]
              cases hh : mrun origTokens (c :: reSubAi (newAiSection name) t) with
              | succ r => exact absurd hh (hsp r)
              | fail => exact ih t (by simp at hs; omega)
              | eof st0 => exact ih t (by simp at hs; omega)

/-! ## Claim C1 (report patcher idempotence) -/

/-- Claim C1, corrected: the report patcher `update_original_report` is
idempotent for every HTML document and every AI-report link name that does
not contain the character `<`: the second application finds no Unpatched
placeholder (every placeholder was rewritten, and the rewritten markup, in
which the stat-value div holds a link rather than the bare `AI分析` text,
does not match the Unpatched pattern), so it performs no change.  The
restriction on the link name is forced by the counterexample
`c1_patcher_not_idempotent_counterexample`, in which the interpolated name
itself reconstructs an Unpatched placeholder inside the href attribute. -/
theorem c1_patcher_idempotent (content name : List Char) (hb : '<' ∉ name) :
    update_original_report (update_original_report content name) name =
      update_original_report content name := by
  by_cases h : reSearchAi content
  · simp only [update_original_report, h, if_true]
    have hnm := reSearchAi_reSubAi name hb content.length content (le_refl _)
    simp [hnm]
  · simp [update_original_report, h]

/-- Witness for `c1_patcher_idempotent` at a concrete Unpatched document
and an ordinary link name. -/
theorem c1_patcher_idempotent_witness :
    ('<' ∉ benignName) ∧
      update_original_report (update_original_report unpatchedDoc benignName) benignName =
        update_original_report unpatchedDoc benignName :=
  ⟨by decide, c1_patcher_idempotent unpatchedDoc benignName (by decide)⟩

/-- Counterexample to claim C1 as frozen (which quantifies over every
AI-report link name): patching a one-placeholder document with a link name
that itself spells out an Unpatched placeholder block makes the first
output contain a fresh placeholder inside the inserted href attribute, so a
second application rewrites again and the output differs.  Evaluated by the
kernel on the concrete document `unpatchedDoc`, with the hostile name equal
to that same block of markup. -/
theorem c1_patcher_not_idempotent_counterexample :
    update_original_report (update_original_report unpatchedDoc unpatchedDoc) unpatchedDoc ≠
      update_original_report unpatchedDoc unpatchedDoc := by decide

/-! ## Theorems: Part 2 (latency statistics) -/

theorem foldl_min_le_init (l : List ℚ) (a : ℚ) : l.foldl min a ≤ a := by
  induction l generalizing a with
  | nil => exact le_refl a
  | cons b bs ih => exact le_trans (ih (min a b)) (min_le_left a b)

theorem foldl_min_le_mem (l : List ℚ) : ∀ a x : ℚ, x ∈ l → l.foldl min a ≤ x := by
  induction l with
  | nil => intro a x hx; cases hx
  | cons b bs ih =>
      intro a x hx
      rcases List.mem_cons.mp hx with rfl | hx2
      · exact le_trans (foldl_min_le_init bs (min a x)) (min_le_right a x)
      · exact ih (min a b) x hx2

/-- Python `min` is a lower bound of the list. -/
theorem pyListMin_le (l : List ℚ) (x : ℚ) (hx : x ∈ l) : pyListMin l ≤ x := by
  cases l with
  | nil => cases hx
  | cons b bs =>
      rcases List.mem_cons.mp hx with rfl | hx2
      · exact foldl_min_le_init bs x
      · exact foldl_min_le_mem bs b x hx2

theorem init_le_foldl_max (l : List ℚ) (a : ℚ) : a ≤ l.foldl max a := by
  induction l generalizing a with
  | nil => exact le_refl a
  | cons b bs ih => exact le_trans (le_max_left a b) (ih (max a b))

theorem mem_le_foldl_max (l : List ℚ) : ∀ a x : ℚ, x ∈ l → x ≤ l.foldl max a := by
  induction l with
  | nil => intro a x hx; cases hx
  | cons b bs ih =>
      intro a x hx
      rcases List.mem_cons.mp hx with rfl | hx2
      · exact le_trans (le_max_right a x) (init_le_foldl_max bs (max a x))
      · exact ih (max a b) x hx2

/-- Python `max` is an upper bound of the list. -/
theorem le_pyListMax (l : List ℚ) (x : ℚ) (hx : x ∈ l) : x ≤ pyListMax l := by
  cases l with
  | nil => cases hx
  | cons b bs =>
      rcases List.mem_cons.mp hx with rfl | hx2
      · exact init_le_foldl_max bs x
      · exact mem_le_foldl_max bs b x hx2

/-- `sorted(times)` is ascending. -/
theorem sortedTimes_sorted (times : List ℚ) :
    (sortedTimes times).Pairwise (· ≤ ·) := by
  have h : (times.mergeSort (fun a b : ℚ => decide (a ≤ b))).Pairwise
      (fun a b : ℚ => decide (a ≤ b) = true) :=
    List.sorted_mergeSort
      (fun a b c hab hbc => by simp at *; exact le_trans hab hbc)
      (fun a b => by simp [le_total]) times
  exact h.imp (fun hab => by simpa using hab)

/-- `sorted(times)` is a permutation of `times`. -/
theorem sortedTimes_perm (times : List ℚ) : (sortedTimes times).Perm times :=
  List.mergeSort_perm times _

theorem sortedTimes_length (times : List ℚ) :
    (sortedTimes times).length = times.length :=
  (sortedTimes_perm times).length_eq

/-- Monotone access into the ascending sort. -/
theorem sortedTimes_getD_mono (times : List ℚ) (i j : Nat) (hij : i ≤ j)
    (hj : j < (sortedTimes times).length) :
    (sortedTimes times).getD i 0 ≤ (sortedTimes times).getD j 0 := by
  have hi : i < (sortedTimes times).length := lt_of_le_of_lt hij hj
  rw [List.getD_eq_getElem _ _ hi, List.getD_eq_getElem _ _ hj]
  rcases eq_or_lt_of_le hij with rfl | hlt
  · exact le_refl _
  · exact List.pairwise_iff_getElem.mp (sortedTimes_sorted times) i j hi hj hlt

/-- Elements of the ascending sort are recorded times. -/
theorem sortedTimes_getD_mem (times : List ℚ) (i : Nat)
    (hi : i < (sortedTimes times).length) :
    (sortedTimes times).getD i 0 ∈ times := by
  rw [List.getD_eq_getElem _ _ hi]
  exact (sortedTimes_perm times).mem_iff.mp (List.getElem_mem hi)

/-! ## Claim C2 (monotone percentile ordering) -/

/-- Claim C2, confirmed: for every label aggregate finalized from at least
one sample, the derived latency statistics satisfy
`min ≤ median ≤ p90 ≤ p95 ≤ p99 ≤ max` (the mean is not constrained
relative to the median, and is indeed not part of this chain). -/
theorem c2_percentile_ordering (times : List ℚ) (e : Nat) (h : times ≠ []) :
    (finalizeStat times e).minResTime ≤ (finalizeStat times e).medianResTime ∧
    (finalizeStat times e).medianResTime ≤ (finalizeStat times e).pct90 ∧
    (finalizeStat times e).pct90 ≤ (finalizeStat times e).pct95 ∧
    (finalizeStat times e).pct95 ≤ (finalizeStat times e).pct99 ∧
    (finalizeStat times e).pct99 ≤ (finalizeStat times e).maxResTime := by
  have hn : 0 < times.length := List.length_pos.mpr h
  have hlen := sortedTimes_length times
  have h99 : pctIndex times.length 99 < (sortedTimes times).length := by
    simp only [pctIndex]; omega
  have h95 : pctIndex times.length 95 ≤ pctIndex times.length 99 := by
    simp only [pctIndex]; omega
  have h90 : pctIndex times.length 90 ≤ pctIndex times.length 95 := by
    simp only [pctIndex]; omega
  have hmed : times.length / 2 ≤ pctIndex times.length 90 := by
    simp only [pctIndex]; omega
  have hmedlt : times.length / 2 < (sortedTimes times).length := by omega
  have h90lt : pctIndex times.length 90 < (sortedTimes times).length := by
    simp only [pctIndex]; omega
  have h95lt : pctIndex times.length 95 < (sortedTimes times).length := by
    simp only [pctIndex]; omega
  refine ⟨?_, ?_, ?_, ?_, ?_⟩
  · simp only [finalizeStat]
    exact pyListMin_le times _ (sortedTimes_getD_mem times _ hmedlt)
  · simp only [finalizeStat]
    exact sortedTimes_getD_mono times _ _ hmed h90lt
  · simp only [finalizeStat]
    exact sortedTimes_getD_mono times _ _ h90 h95lt
  · simp only [finalizeStat]
    exact sortedTimes_getD_mono times _ _ h95 h99
  · simp only [finalizeStat]
    exact le_pyListMax times _ (sortedTimes_getD_mem times _ h99)

/-- Witness for `c2_percentile_ordering` at the times `[3, 1, 2]`. -/
theorem c2_percentile_ordering_witness :
    (([3, 1, 2] : List ℚ) ≠ []) ∧
    ((finalizeStat [3, 1, 2] 0).minResTime ≤ (finalizeStat [3, 1, 2] 0).medianResTime ∧
     (finalizeStat [3, 1, 2] 0).medianResTime ≤ (finalizeStat [3, 1, 2] 0).pct90 ∧
     (finalizeStat [3, 1, 2] 0).pct90 ≤ (finalizeStat [3, 1, 2] 0).pct95 ∧
     (finalizeStat [3, 1, 2] 0).pct95 ≤ (finalizeStat [3, 1, 2] 0).pct99 ∧
     (finalizeStat [3, 1, 2] 0).pct99 ≤ (finalizeStat [3, 1, 2] 0).maxResTime) :=
  ⟨by decide, c2_percentile_ordering [3, 1, 2] 0 (by decide)⟩

/-! ## Claim C7 (percentile index formula) -/

/-- Claim C7, confirmed: the percentile computation sorts the elapsed times
ascending and selects the element at index `floor(p * count)`; for every
non-empty list that index is in bounds, and it coincides with the
spec-stated formula `floor(p * count)` clamped to `count - 1` (the source
writes no clamp, and none is needed: the unclamped index never exceeds
`count - 1`). -/
theorem c7_percentile_index (times : List ℚ) (e : Nat) (h : times ≠ []) :
    (pctIndex times.length 90 < times.length ∧
     pctIndex times.length 95 < times.length ∧
     pctIndex times.length 99 < times.length) ∧
    (pctIndex times.length 90 = specClampedIndex times.length 90 ∧
     pctIndex times.length 95 = specClampedIndex times.length 95 ∧
     pctIndex times.length 99 = specClampedIndex times.length 99) ∧
    ((finalizeStat times e).pct90 =
        (sortedTimes times).getD (specClampedIndex times.length 90) 0 ∧
     (finalizeStat times e).pct95 =
        (sortedTimes times).getD (specClampedIndex times.length 95) 0 ∧
     (finalizeStat times e).pct99 =
        (sortedTimes times).getD (specClampedIndex times.length 99) 0) := by
  have hn : 0 < times.length := List.length_pos.mpr h
  have e90 : pctIndex times.length 90 = specClampedIndex times.length 90 := by
    simp only [pctIndex, specClampedIndex]; omega
  have e95 : pctIndex times.length 95 = specClampedIndex times.length 95 := by
    simp only [pctIndex, specClampedIndex]; omega
  have e99 : pctIndex times.length 99 = specClampedIndex times.length 99 := by
    simp only [pctIndex, specClampedIndex]; omega
  refine ⟨⟨?_, ?_, ?_⟩, ⟨e90, e95, e99⟩, ?_, ?_, ?_⟩
  · simp only [pctIndex]; omega
  · simp only [pctIndex]; omega
  · simp only [pctIndex]; omega
  · simp only [finalizeStat, ← e90]
  · simp only [finalizeStat, ← e95]
  · simp only [finalizeStat, ← e99]

/-- Witness for `c7_percentile_index` at the times `[5, 4]`. -/
theorem c7_percentile_index_witness :
    (([5, 4] : List ℚ) ≠ []) ∧
    ((pctIndex 2 90 < 2 ∧ pctIndex 2 95 < 2 ∧ pctIndex 2 99 < 2) ∧
     (pctIndex 2 90 = specClampedIndex 2 90 ∧
      pctIndex 2 95 = specClampedIndex 2 95 ∧
      pctIndex 2 99 = specClampedIndex 2 99) ∧
     ((finalizeStat [5, 4] 1).pct90 = (sortedTimes [5, 4]).getD (specClampedIndex 2 90) 0 ∧
      (finalizeStat [5, 4] 1).pct95 = (sortedTimes [5, 4]).getD (specClampedIndex 2 95) 0 ∧
      (finalizeStat [5, 4] 1).pct99 = (sortedTimes [5, 4]).getD (specClampedIndex 2 99) 0)) :=
  ⟨by decide, c7_percentile_index [5, 4] 1 (by decide)⟩

/-! ## Claim C3 (seconds-vs-milliseconds unit decision) -/

/-- Claim C3, amended: the unit decision is made once per file from the
min/max of the full timestamp set, and in the XML extraction path every
branch of the heuristic classifies the timestamps as milliseconds — the
seconds interpretation is never selected; in particular an XML result log
with ts=1000, ts=2000, ts=3000 is not classified as seconds, and the CSV
path buckets that same set as milliseconds as well. -/
theorem c3_unit_decision (timestamps : List Int) (nowSec : Int)
    (h : timestamps ≠ []) :
    xml_is_milliseconds timestamps nowSec = true ∧
    xml_is_milliseconds [1000, 2000, 3000] nowSec = true ∧
    csv_is_milliseconds [1000, 2000, 3000] = true := by
  refine ⟨?_, ?_, by decide⟩
  · simp [xml_is_milliseconds]
  · simp [xml_is_milliseconds]

/-- Witness for `c3_unit_decision` at the spec example `[1000, 2000, 3000]`
and a 2026 wall clock. -/
theorem c3_unit_decision_witness :
    (([1000, 2000, 3000] : List Int) ≠ []) ∧
    (xml_is_milliseconds [1000, 2000, 3000] 1760227200 = true ∧
     xml_is_milliseconds [1000, 2000, 3000] 1760227200 = true ∧
     csv_is_milliseconds [1000, 2000, 3000] = true) :=
  ⟨by decide, c3_unit_decision [1000, 2000, 3000] 1760227200 (by decide)⟩

/-- Counterexample to claim C3 as frozen: for the timestamp set
`[200, 500]` the heuristic described by the claim reaches its fallback
condition (the values are at least 100, but the apparent range of 300 ms
lies outside one second to one hour) and the seconds-based interpretation
is plausible (a range of 300 seconds), so the claim prescribes
"seconds are used"; the XML extractor nevertheless classifies the file as
milliseconds (its `else` arm is also `is_milliseconds = True`). -/
theorem c3_unit_decision_counterexample :
    spec_unit_is_seconds [200, 500] = true ∧
    xml_is_milliseconds [200, 500] 1760227200 = true := by decide

/-! ## Claim C4 (XML-to-CSV fallback, no-data result) -/

/-- Claim C4, confirmed: for every result-log file, the extraction never
raises (first conjunct); if the XML parse fails with a parse error the
extraction returns exactly what CSV parsing of the same file returns
(second conjunct); and if on top of that the CSV attempt also fails —
raising, or returning no data — the extraction returns the no-data result
`none` (third conjunct). -/
theorem c4_extraction_fallback {XmlTree : Type} (parse : Except PyExn XmlTree)
    (xmlBody : XmlTree → Except PyExn (Option TpsData))
    (csvBody : Except PyExn (Option TpsData)) :
    (∃ r, calculate_tps_from_jtl parse xmlBody csvBody = .ok r) ∧
    (parse = .error .parseError →
      calculate_tps_from_jtl parse xmlBody csvBody =
        .ok (calculate_tps_from_csv_jtl csvBody)) ∧
    (parse = .error .parseError → (∀ d, csvBody ≠ .ok (some d)) →
      calculate_tps_from_jtl parse xmlBody csvBody = .ok none) := by
  refine ⟨?_, ?_, ?_⟩
  · unfold calculate_tps_from_jtl pyTryCatch
    cases hp : parse.bind xmlBody with
    | ok r => exact ⟨r, rfl⟩
    | error e => cases e <;> simp [calculate_tps_from_csv_jtl]
  · intro hp
    subst hp
    unfold calculate_tps_from_jtl pyTryCatch
    rfl
  · intro hp hcsv
    subst hp
    unfold calculate_tps_from_jtl pyTryCatch calculate_tps_from_csv_jtl
    cases hc : csvBody with
    | ok r =>
        cases r with
        | none => rfl
        | some d => exact absurd hc (hcsv d)
    | error e => rfl

/-- Witness for `c4_extraction_fallback`: a file whose XML parse raises a
parse error and whose CSV read raises as well. -/
theorem c4_extraction_fallback_witness :
    calculate_tps_from_jtl (Except.error PyExn.parseError : Except PyExn Unit)
        (fun _ => .ok none) (.error .other) =
      .ok (calculate_tps_from_csv_jtl (.error .other)) ∧
    calculate_tps_from_jtl (Except.error PyExn.parseError : Except PyExn Unit)
        (fun _ => .ok none) (.error .other) = .ok none :=
  ⟨(c4_extraction_fallback _ _ _).2.1 rfl,
   (c4_extraction_fallback _ _ _).2.2 rfl (fun d h => by cases h)⟩

/-! ## Claim C5 (narrative-service call contract) -/

/-- Claim C5, confirmed: with an API key configured, the narrative call
never raises (the model is a total function into `Narrative × List Nat`,
because the `except` clauses of the source cover every exception); when
every attempt times out, the call retries with exponentially increasing
backoff (sleeps of 2 then 4 seconds) up to the fixed ceiling of 3 attempts
and then returns the locally generated placeholder; on any other service
error (including the non-2xx responses turned into `RequestException` by
`raise_for_status`) it returns the placeholder at once; a successful
attempt, also after timeouts, returns the service narrative. -/
theorem c5_ai_service_contract (apiKey : String) (hk : apiKey ≠ "")
    (o : Nat → AIAttempt) :
    ((∀ i, i < 3 → o i = .timeout) →
      call_ai_service apiKey o = (.mock, [2, 4])) ∧
    (o 0 = .requestError ∨ o 0 = .otherError →
      call_ai_service apiKey o = (.mock, [])) ∧
    (∀ t, o 0 = .success t → call_ai_service apiKey o = (.fromService t, [])) ∧
    (∀ t, o 0 = .timeout → o 1 = .success t →
      call_ai_service apiKey o = (.fromService t, [2])) ∧
    (∀ t, o 0 = .timeout → o 1 = .timeout → o 2 = .success t →
      call_ai_service apiKey o = (.fromService t, [2, 4])) := by
  refine ⟨?_, ?_, ?_, ?_, ?_⟩
  · intro ho
    have h0 := ho 0 (by norm_num)
    have h1 := ho 1 (by norm_num)
    have h2 := ho 2 (by norm_num)
    simp [call_ai_service, hk, aiRetryLoop, maxRetries, h0, h1, h2]
  · rintro (h0 | h0) <;> simp [call_ai_service, hk, aiRetryLoop, maxRetries, h0]
  · intro t h0
    simp [call_ai_service, hk, aiRetryLoop, maxRetries, h0]
  · intro t h0 h1
    simp [call_ai_service, hk, aiRetryLoop, maxRetries, h0, h1]
  · intro t h0 h1 h2
    simp [call_ai_service, hk, aiRetryLoop, maxRetries, h0, h1, h2]

/-- Witness for `c5_ai_service_contract`: all three attempts time out; the
call degrades to the placeholder after backoff sleeps of 2 and 4
seconds. -/
theorem c5_ai_service_contract_witness :
    call_ai_service "key" (fun _ => AIAttempt.timeout) = (.mock, [2, 4]) :=
  (c5_ai_service_contract "key" (by decide) (fun _ => AIAttempt.timeout)).1
    (fun i _ => rfl)

/-! ## Claim C10 (HTML-report TPS fallback constants) -/

/-- Claim C10, confirmed: whenever the degraded fallback path
`calculate_tps_from_html_report` reports TPS data, the reported
`test_duration_seconds` is the constant 10 regardless of the document, and
`peak_tps` and `min_tps` are 1.5 and 0.5 times the computed average rather
than being measured from per-second data (the reported `tps_by_second` is
empty). -/
theorem c10_html_tps_constants (n : Nat) (h : n ≠ 0) :
    ∃ d, calculate_tps_from_html_report n = some d ∧
      d.test_duration_seconds = 10 ∧
      d.average_tps = pyRound2 ((n : ℚ) / 10) ∧
      d.peak_tps = pyRound2 (((n : ℚ) / 10) * (3 / 2)) ∧
      d.min_tps = pyRound2 (((n : ℚ) / 10) * (1 / 2)) ∧
      d.tps_by_second = [] := by
  unfold calculate_tps_from_html_report
  rw [if_neg h]
  refine ⟨_, rfl, rfl, ?_, ?_, ?_, rfl⟩ <;> norm_num

/-- Witness for `c10_html_tps_constants` at a scraped request count of
2000. -/
theorem c10_html_tps_constants_witness :
    ∃ d, calculate_tps_from_html_report 2000 = some d ∧
      d.test_duration_seconds = 10 ∧
      d.average_tps = pyRound2 ((2000 : ℚ) / 10) ∧
      d.peak_tps = pyRound2 (((2000 : ℚ) / 10) * (3 / 2)) ∧
      d.min_tps = pyRound2 (((2000 : ℚ) / 10) * (1 / 2)) ∧
      d.tps_by_second = [] :=
  c10_html_tps_constants 2000 (by decide)

/-! ## Theorems: Part 6 (markdown table machine) -/

theorem splitOn_ne_nil (sep : Char) (s : List Char) : splitOn sep s ≠ [] := by
  induction s with
  | nil => simp [splitOn]
  | cons c t ih =>
      simp only [splitOn]
      cases h : splitOn sep t with
      | nil => exact absurd h ih
      | cons l ls =>
          simp only [h]
          split <;> simp

/-- A newline-free text splits into the single line it is. -/
theorem splitLines_no_nl (l : List Char) (h : hasChar '\n' l = false) :
    splitLines l = [l] := by
  induction l with
  | nil => rfl
  | cons c t ih =>
      simp only [hasChar, List.any_cons, Bool.or_eq_false_iff] at h
      have hc : ¬ c = '\n' := by
        intro hEq; rw [hEq] at h; simp at h
      have ht : splitLines t = [t] := by
        apply ih; simp [hasChar, h.2]
      show splitOn '\n' (c :: t) = [c :: t]
      simp only [splitOn]
      rw [show splitOn '\n' t = [t] from ht]
      simp [hc]

/-- Splitting after a newline-free first line peels it off. -/
theorem splitLines_append (l w : List Char) (h : hasChar '\n' l = false) :
    splitLines (l ++ '\n' :: w) = l :: splitLines w := by
  induction l with
  | nil =>
      show splitOn '\n' ('\n' :: w) = [] :: splitLines w
      simp only [splitOn]
      cases hw : splitOn '\n' w with
      | nil => exact absurd hw (splitOn_ne_nil '\n' w)
      | cons l2 ls2 => simp [show splitLines w = l2 :: ls2 from hw]
  | cons c t ih =>
      simp only [hasChar, List.any_cons, Bool.or_eq_false_iff] at h
      have hc : ¬ c = '\n' := by
        intro hEq; rw [hEq] at h; simp at h
      have ht := ih (by simp [hasChar, h.2])
      show splitOn '\n' (c :: (t ++ '\n' :: w)) = (c :: t) :: splitLines w
      simp only [splitOn]
      rw [show splitOn '\n' (t ++ '\n' :: w) = t :: splitLines w from ht]
      simp [hc]

/-- Splitting is a left inverse of joining for nonempty newline-free
lines. -/
theorem splitLines_joinLines (ls : List (List Char)) (hne : ls ≠ [])
    (hnl : ∀ l ∈ ls, hasChar '\n' l = false) :
    splitLines (joinLines ls) = ls := by
  induction ls with
  | nil => exact absurd rfl hne
  | cons l rest ih =>
      cases rest with
      | nil =>
          show splitLines (joinLines [l]) = [l]
          simp only [joinLines]
          exact splitLines_no_nl l (hnl l (by simp))
      | cons l2 r2 =>
          rw [show joinLines (l :: l2 :: r2) = l ++ '\n' :: joinLines (l2 :: r2) from rfl]
          rw [splitLines_append l _ (hnl l (by simp))]
          rw [ih (by simp) (fun x hx => hnl x (by simp [hx]))]

/-- While every remaining line contains a pipe, the table machine keeps
accumulating and flushes the whole accumulation at end of input (when at
least two lines accumulated). -/
theorem processLines_all_pipe (ls : List (List Char)) :
    ∀ acc, (∀ l ∈ ls, hasChar '|' l = true) →
    processLines ls true acc =
      if 2 ≤ (acc ++ ls.map pyStrip).length then [renderTable (acc ++ ls.map pyStrip)]
      else [] := by
  induction ls with
  | nil =>
      intro acc _
      simp only [processLines, List.map_nil, List.append_nil, Bool.true_and]
      by_cases h : 2 ≤ acc.length
      · simp [h]
      · simp [h]
  | cons l rest ih =>
      intro acc hp
      have hl := hp l (by simp)
      simp only [processLines, hl, if_true]
      rw [ih (acc ++ [pyStrip l]) (fun x hx => hp x (by simp [hx]))]
      simp [List.append_assoc]

/-- A pipe run followed by a non-table line: the machine flushes the
accumulation at that line and restarts cleanly. -/
theorem processLines_pipe_then (run : List (List Char)) :
    ∀ acc l rest, (∀ x ∈ run, hasChar '|' x = true) → hasChar '|' l = false →
    processLines (run ++ l :: rest) true acc =
      (if 2 ≤ (acc ++ run.map pyStrip).length then [renderTable (acc ++ run.map pyStrip)]
       else []) ++ l :: processLines rest false [] := by
  induction run with
  | nil =>
      intro acc l rest _ hl
      simp only [List.nil_append, processLines, hl, Bool.true_and, List.map_nil,
        List.append_nil]
      by_cases h : 2 ≤ acc.length
      · simp [h]
      · simp [h]
  | cons x run2 ih =>
      intro acc l rest hp hl
      have hx := hp x (by simp)
      simp only [List.cons_append, processLines, hx, if_true, List.append_eq]
      rw [ih (acc ++ [pyStrip x]) l rest (fun y hy => hp y (by simp [hy])) hl]
      simp [List.append_assoc]

/-! ## Claim C6 (markdown table conversion, flush at end of input) -/

/-- Claim C6, confirmed.  First conjunct: converting the fixed input
`"A|B\n---|---\n1|2"` yields exactly one `<table` element, one `<thead>`
with one `<tr>` of two `<th style` cells and one `<tbody>` with one `<tr>`
of two `<td style` cells (two `<tr>` in total; `<th style` and `<td style`
are the exact cell openers emitted by the source).  Second conjunct: a
table that ends at end of input — no trailing blank line — is still
converted: on any text consisting only of pipe lines, `process_tables`
returns exactly the rendered table.  Third conjunct: an accumulated table
is also flushed at the first non-table line, the line itself is kept, and
processing continues. -/
theorem c6_markdown_table_flush :
    (countOccur "<table".toList (markdown_to_html "A|B\n---|---\n1|2".toList) = 1 ∧
     countOccur "<thead>".toList (markdown_to_html "A|B\n---|---\n1|2".toList) = 1 ∧
     countOccur "<tbody>".toList (markdown_to_html "A|B\n---|---\n1|2".toList) = 1 ∧
     countOccur "<tr>".toList (markdown_to_html "A|B\n---|---\n1|2".toList) = 2 ∧
     countOccur "<th style".toList (markdown_to_html "A|B\n---|---\n1|2".toList) = 2 ∧
     countOccur "<td style".toList (markdown_to_html "A|B\n---|---\n1|2".toList) = 2) ∧
    (∀ ls : List (List Char), (∀ l ∈ ls, hasChar '|' l = true) →
       (∀ l ∈ ls, hasChar '\n' l = false) → 2 ≤ ls.length →
       process_tables (joinLines ls) = renderTable (ls.map pyStrip)) ∧
    (∀ (run : List (List Char)) (l : List Char) (rest : List (List Char)),
       (∀ x ∈ run, hasChar '|' x = true) → hasChar '|' l = false → 2 ≤ run.length →
       processLines (run ++ l :: rest) false [] =
         renderTable (run.map pyStrip) :: l :: processLines rest false []) := by
  refine ⟨by decide, ?_, ?_⟩
  · intro ls hp hnl hlen
    unfold process_tables
    rw [splitLines_joinLines ls (by cases ls with
      | nil => simp at hlen
      | cons a b => simp) hnl]
    cases ls with
    | nil => simp at hlen
    | cons l rest =>
        cases rest with
        | nil => simp at hlen
        | cons l2 rest2 =>
            have hl := hp l (by simp)
            rw [show processLines (l :: l2 :: rest2) false [] =
                  processLines (l2 :: rest2) true [pyStrip l] from by
              simp [processLines, hl]]
            rw [processLines_all_pipe (l2 :: rest2) [pyStrip l]
              (fun x hx => hp x (by simp [hx]))]
            rw [if_pos (by simp)]
            simp [joinLines]
  · intro run l rest hp hl hlen
    cases run with
    | nil => simp at hlen
    | cons r1 run2 =>
        have hr1 := hp r1 (by simp)
        rw [show processLines ((r1 :: run2) ++ l :: rest) false [] =
              processLines (run2 ++ l :: rest) true [pyStrip r1] from by
          simp [processLines, hr1]]
        rw [processLines_pipe_then run2 [pyStrip r1] l rest
          (fun y hy => hp y (by simp [hy])) hl]
        rw [if_pos (by simp at hlen ⊢; omega)]
        simp

/-- Witness for `c6_markdown_table_flush` at the fixed three-line table and
at a two-line table followed by the non-table line `x`. -/
theorem c6_markdown_table_flush_witness :
    process_tables (joinLines ["A|B".toList, "---|---".toList, "1|2".toList]) =
      renderTable (["A|B".toList, "---|---".toList, "1|2".toList].map pyStrip) ∧
    processLines (["A|B".toList, "---|---".toList] ++ "x".toList :: []) false [] =
      renderTable (["A|B".toList, "---|---".toList].map pyStrip) ::
        "x".toList :: processLines [] false [] :=
  ⟨c6_markdown_table_flush.2.1 _ (by decide) (by decide) (by decide),
   c6_markdown_table_flush.2.2 _ _ _ (by decide) (by decide) (by decide)⟩

/-! ## Claim C9 (list wrapping) -/

/-- Claim C9 names a behavior the code does not have: evaluating
`markdown_to_html` at the two-line unordered list `"- item1\n- item2"`
produces two `<ul>` containers — one per line, not one per maximal run —
and, because the ordered-list wrapping pass re-matches every `<li>` that
the unordered pass already wrapped, each item additionally gains an `<ol>`
container (the full output is
`<p><ul><ol><li>item1</li></ol></ul><br><ul><ol><li>item2</li></ol></ul></p>`);
likewise the two-line ordered list `"1. a\n2. b"` yields two `<ol>`
containers. -/
theorem c9_list_wrapping_failing_input :
    countOccur "<ul>".toList (markdown_to_html "- item1\n- item2".toList) = 2 ∧
    countOccur "<ol>".toList (markdown_to_html "- item1\n- item2".toList) = 2 ∧
    countOccur "<ol>".toList (markdown_to_html "1. a\n2. b".toList) = 2 ∧
    countOccur "<ul>".toList (markdown_to_html "1. a\n2. b".toList) = 0 := by
  decide

/-! ## Theorems: Part 7 (markup extractor) and Claim C8 -/

/-- Every row kept by the table scraper pairs the extracted headers, in
order, with the stripped cell values: mismatched-arity rows contribute
nothing. -/
theorem tableRows_keys (sect : List Char) (b : Bool)
    (row : List (List Char × List Char)) (hrow : row ∈ tableRows sect b) :
    row.map Prod.fst = tableHeaders sect ∧
    row.length = (tableHeaders sect).length := by
  unfold tableRows at hrow
  rw [List.mem_filterMap] at hrow
  obtain ⟨r, _, hf⟩ := hrow
  cases hb : buildRow (tableHeaders sect) r with
  | none => rw [hb] at hf; cases hf
  | some row0 =>
      rw [hb] at hf
      have hf2 : (if b then (if statRowKeep row0 then some row0 else none)
          else some row0) = some row := by
        cases b <;> simpa using hf
      have hrow0 : row0 = row := by
        cases b with
        | false => simpa using hf2
        | true =>
            simp only [if_true] at hf2
            split at hf2
            · simpa using hf2
            · cases hf2
      subst hrow0
      unfold buildRow at hb
      split at hb
      · split at hb
        · rename_i hlenEq
          have hz : (tableHeaders sect).zip
              ((findAllTag "<td".toList "</td>".toList true r).map pyStrip) = row0 := by
            simpa using hb
          rw [← hz]
          constructor
          · apply List.map_fst_zip
            simp only [List.length_map]
            omega
          · rw [List.length_zip]
            simp only [List.length_map]
            omega
        · cases hb
      · cases hb

/-- Claim C8, confirmed: in every dashboard produced by the markup
extractor, every row of the statistics, errors and top-errors tables
carries exactly the key list (hence key set) of the extracted header row of
its table, and has exactly as many cells as there are headers — a scraped
row whose cell count differs from the header count is dropped entirely,
never partially included. -/
theorem c8_row_key_sets (content : List Char) :
    (∀ row ∈ (parse_index_html content).statistics,
       row.map Prod.fst = statisticsHeaders content ∧
       row.length = (statisticsHeaders content).length) ∧
    (∀ row ∈ (parse_index_html content).errors,
       row.map Prod.fst = errorsHeaders content ∧
       row.length = (errorsHeaders content).length) ∧
    (∀ row ∈ (parse_index_html content).top_errors,
       row.map Prod.fst = topErrorsHeaders content ∧
       row.length = (topErrorsHeaders content).length) := by
  refine ⟨?_, ?_, ?_⟩
  · intro row hrow
    unfold parse_index_html at hrow
    unfold statisticsHeaders
    simp only at hrow
    cases hs : sectionSlice "<h2>Statistics</h2>".toList content with
    | none => rw [hs] at hrow; cases hrow
    | some sect => rw [hs] at hrow; exact tableRows_keys sect true row hrow
  · intro row hrow
    unfold parse_index_html at hrow
    unfold errorsHeaders
    simp only at hrow
    cases hs : sectionSlice "<h2>Errors</h2>".toList content with
    | none => rw [hs] at hrow; cases hrow
    | some sect => rw [hs] at hrow; exact tableRows_keys sect false row hrow
  · intro row hrow
    unfold parse_index_html at hrow
    unfold topErrorsHeaders
    simp only at hrow
    cases hs : sectionSlice "<h2>Top 5 Errors by sampler</h2>".toList content with
    | none => rw [hs] at hrow; cases hrow
    | some sect => rw [hs] at hrow; exact tableRows_keys sect false row hrow

/-- Witness for `c8_row_key_sets` on a small generated report holding one
statistics row. -/
theorem c8_row_key_sets_witness :
    [("Label".toList, "L1".toList), ("Requests".toList, "5".toList)].map Prod.fst =
        statisticsHeaders sampleDashboardHtml ∧
    ([("Label".toList, "L1".toList), ("Requests".toList, "5".toList)]).length =
        (statisticsHeaders sampleDashboardHtml).length :=
  (c8_row_key_sets sampleDashboardHtml).1 _ (by decide)

end AIJmeter
